import Mathlib

/-!
# Adafruit_IS31FL3731guy: the LED-matrix driver, embedded in Lean

A shallow embedding of `Adafruit_IS31FL3731guy.cpp`.

* Machine integers are `Nat` / `Int` with the C conversions written out
  (`toU8`, `toI16`).
* The driver object is the record `Driver` (its `_frame`, the rotation kept by
  the graphics base, and the bus device handle).  Every member function takes
  the driver and returns the driver after the call (with the returned value, if
  it has one).
* The bus device is a recording device: each `write` / `write_then_read`
  appends one transaction to `log`, and its outcome comes from the device's
  oracles (`ack`, `reply`), indexed by the number of transactions made before.
* The register-map constants (`ISSI_...`) are `#define`s of the header
  `Adafruit_IS31FL3731guy.h`; the driver is embedded for any values of them,
  the parameter `RegMap`.
* `setSpeed`, `delay` and the debug `printf`s issue no bus transaction and
  have no counterpart here.
-/

namespace IS31FL3731

/-! ## Machine integers -/

/-- Conversion of a C integer value to `uint8_t`. -/
def toU8 (n : Int) : Nat := (n % 256).toNat

/-- Conversion of a C integer value to `int16_t` (two's complement wrap). -/
def toI16 (n : Int) : Int := (n + 32768) % 65536 - 32768

/-! ## Register map (header constants) -/

/-- The `#define`d constants of the header the driver refers to. -/
structure RegMap where
  ISSI_COMMANDREGISTER : Nat
  ISSI_BANK_FUNCTIONREG : Nat
  ISSI_REG_SHUTDOWN : Nat
  ISSI_REG_CONFIG : Nat
  ISSI_REG_CONFIG_PICTUREMODE : Nat
  ISSI_REG_PICTUREFRAME : Nat

/-- The values these constants have in the IS31FL3731 register map
(command register 0xFD, function page 0x0B, shutdown 0x0A, config 0x00,
picture mode 0x00, picture frame 0x01). -/
def issiRegMap : RegMap where
  ISSI_COMMANDREGISTER := 0xFD
  ISSI_BANK_FUNCTIONREG := 0x0B
  ISSI_REG_SHUTDOWN := 0x0A
  ISSI_REG_CONFIG := 0x00
  ISSI_REG_CONFIG_PICTUREMODE := 0x00
  ISSI_REG_PICTUREFRAME := 0x01

/-! ## The bus device -/

/-- One transaction on the two-wire bus, as the driver issues it. -/
inductive Txn where
  | write (bytes : List Nat)
  | writeThenRead (bytes : List Nat) (readLen : Nat)
  deriving DecidableEq, Repr

/-- The bus device handle (`Adafruit_I2CDevice`), seen from the driver:
`detected` is the outcome of the presence probe made by its `begin()`,
`ack n` the acknowledgment of the transaction issued after `n` earlier ones,
`reply n` the byte a read at that point delivers (none when nothing is read),
`log` the transactions issued so far, oldest first. -/
structure I2CDevice where
  detected : Bool
  ack : Nat → Bool
  reply : Nat → Option Nat
  log : List Txn

/-- Device call `write(buf, len)`: the bytes go out as one transaction. -/
def I2CDevice.write (dev : I2CDevice) (buf : List Nat) : Bool × I2CDevice :=
  (dev.ack dev.log.length, { dev with log := dev.log ++ [Txn.write buf] })

/-- Device call `write_then_read(wbuf, wlen, rbuf, rlen)` with `rlen = 1`: the
byte read, if any, next to the outcome. -/
def I2CDevice.write_then_read (dev : I2CDevice) (wbuf : List Nat) (rlen : Nat) :
    (Bool × Option Nat) × I2CDevice :=
  ((dev.ack dev.log.length, dev.reply dev.log.length),
    { dev with log := dev.log ++ [Txn.writeThenRead wbuf rlen] })

/-! ## The driver -/

/-- The driver object: `_frame`, the rotation of the graphics base
(`getRotation()`), and the bus device handle `_i2c_dev`. -/
structure Driver where
  _frame : Nat
  rotation : Nat
  _i2c_dev : I2CDevice

/-- Member `selectBank(bank)`. -/
def selectBank (R : RegMap) (d : Driver) (bank : Nat) : Bool × Driver :=
  let cmd := [R.ISSI_COMMANDREGISTER, bank]
  let r := d._i2c_dev.write cmd
  (r.1, { d with _i2c_dev := r.2 })

/-- Member `writeRegister8(bank, reg, data)`. -/
def writeRegister8 (R : RegMap) (d : Driver) (bank reg data : Nat) : Bool × Driver :=
  let d1 := (selectBank R d bank).2
  let cmd := [reg, data]
  let r := d1._i2c_dev.write cmd
  (r.1, { d1 with _i2c_dev := r.2 })

/-- Member `readRegister8(bank, reg)`. -/
def readRegister8 (R : RegMap) (d : Driver) (bank reg : Nat) : Nat × Driver :=
  let val := 0xFF
  let d1 := (selectBank R d bank).2
  let r := d1._i2c_dev.write_then_read [reg] 1
  (r.1.2.getD val, { d1 with _i2c_dev := r.2 })

/-- Member `setFrame(frame)`. -/
def setFrame (d : Driver) (frame : Nat) : Driver :=
  { d with _frame := frame }

/-- Member `displayFrame(frame)`. -/
def displayFrame (R : RegMap) (d : Driver) (frame : Nat) : Driver :=
  let frame := if frame > 7 then 0 else frame
  (writeRegister8 R d R.ISSI_BANK_FUNCTIONREG R.ISSI_REG_PICTUREFRAME frame).2

/-- Member `setLEDPWM(lednum, pwm, bank)`. -/
def setLEDPWM (R : RegMap) (d : Driver) (lednum pwm bank : Nat) : Driver :=
  if lednum ≥ 144 then d
  else (writeRegister8 R d bank (toU8 (0x24 + (lednum : Int))) pwm).2

/-- Member `clear()`: bank select, then the loop `for (i = 0; i < 6; i++)`
over the 25-byte `erasebuf`. -/
def clear (R : RegMap) (d : Driver) : Driver :=
  let d1 := (selectBank R d d._frame).2
  let erasebuf := List.replicate 25 0
  ((List.range 6).foldl
    (fun (s : List Nat × Driver) i =>
      let buf := s.1.set 0 (toU8 (0x24 + (i : Int) * 24))
      (buf, { s.2 with _i2c_dev := (s.2._i2c_dev.write (buf.take 25)).2 }))
    (erasebuf, d1)).2

/-- Member `begin(addr, theWire)`: the probe, then the bring-up sequence with
its loop nest `for (f = 0; f < 8; f++) for (i = 0; i <= 0x11; i++)`. -/
def begin (R : RegMap) (d : Driver) : Bool × Driver :=
  if !d._i2c_dev.detected then (false, d)
  else
    let d := { d with _frame := 0 }
    let d := (writeRegister8 R d R.ISSI_BANK_FUNCTIONREG R.ISSI_REG_SHUTDOWN 0x00).2
    let d := (writeRegister8 R d R.ISSI_BANK_FUNCTIONREG R.ISSI_REG_SHUTDOWN 0x01).2
    let d := (writeRegister8 R d R.ISSI_BANK_FUNCTIONREG R.ISSI_REG_CONFIG
                R.ISSI_REG_CONFIG_PICTUREMODE).2
    let d := displayFrame R d d._frame
    let d := clear R d
    let d := (List.range 8).foldl
      (fun d f => (List.range (0x11 + 1)).foldl
        (fun d i => (writeRegister8 R d f i 0xff).2) d) d
    (true, d)

/-- The `switch (getRotation())` block of `drawPixel`: the coordinates after
the rotation cases (`_swap_int16_t`, then the mirrored coordinate stored back
into its `int16_t` variable). -/
def rotate (rotation : Nat) (x y : Int) : Int × Int :=
  match rotation with
  | 1 =>
    let (x, y) := (y, x)
    let x := toI16 (16 - x - 1)
    (x, y)
  | 2 =>
    let x := toI16 (16 - x - 1)
    let y := toI16 (9 - y - 1)
    (x, y)
  | 3 =>
    let (x, y) := (y, x)
    let y := toI16 (9 - y - 1)
    (x, y)
  | _ => (x, y)

/-- Member `drawPixel(x, y, color)`. -/
def drawPixel (R : RegMap) (d : Driver) (x y : Int) (color : Nat) : Driver :=
  let (x, y) := rotate d.rotation x y
  if x < 0 ∨ x ≥ 16 then d
  else if y < 0 ∨ y ≥ 9 then d
  else
    let color := if color > 255 then 255 else color
    setLEDPWM R d (toU8 (x + y * 16)) (toU8 color) d._frame

/-- Member `setLEDBytesguy(reg, bits_l, bits_r)`. -/
def setLEDBytesguy (d : Driver) (reg bits_l bits_r : Nat) : Driver :=
  if reg ≥ 18 then d
  else
    let erasebuf := [0, bits_r, bits_l]
    { d with _i2c_dev := (d._i2c_dev.write erasebuf).2 }

/-- Member `setLEDBufguy(reg, count, words)`.  The caller's memory is `mem`,
addressed in bytes relative to `words` (so `mem (-1)` is the byte ahead of the
first word); the call returns the memory as it leaves it. -/
def setLEDBufguy (d : Driver) (reg count : Nat) (mem : Int → Nat) :
    (Int → Nat) × Driver :=
  if reg + count > 9 then (mem, d)
  else
    let mem := Function.update mem (-1) (toU8 ((reg : Int) * 2))
    let len := toU8 (2 * (count : Int) + 1)
    (mem, { d with _i2c_dev :=
      (d._i2c_dev.write ((List.range len).map (fun (k : Nat) => mem ((k : Int) - 1)))).2 })

/-! ## Definitions used to state the properties -/

/-- The pixel grid of the chip: 16 columns, 9 rows. -/
def inGrid (p : Int × Int) : Prop := 0 ≤ p.1 ∧ p.1 < 16 ∧ 0 ≤ p.2 ∧ p.2 < 9

instance (p : Int × Int) : Decidable (inGrid p) :=
  inferInstanceAs (Decidable (0 ≤ p.1 ∧ p.1 < 16 ∧ 0 ≤ p.2 ∧ p.2 < 9))

/-- The coordinate remapping in the words of the specification, over the
unbounded integers (no 16-bit storage): rotation 0 identity; rotation 1 swap
x/y, then x := 16 - x - 1; rotation 2 x := 16 - x - 1, y := 9 - y - 1;
rotation 3 swap x/y, then y := 9 - y - 1. -/
def specRemap (rotation : Nat) (x y : Int) : Int × Int :=
  match rotation with
  | 1 => (16 - y - 1, x)
  | 2 => (16 - x - 1, 9 - y - 1)
  | 3 => (y, 9 - x - 1)
  | _ => (x, y)

/-- A driver with a fresh recording bus (device present, every transaction
acknowledged, nothing to read), for evaluating the operations. -/
def freshDriver (frame rotation : Nat) : Driver :=
  { _frame := frame, rotation := rotation,
    _i2c_dev := { detected := true, ack := fun _ => true, reply := fun _ => none, log := [] } }

/-- The bus trace of one `writeRegister8(bank, reg, data)` in the words of the
specification: the bank select, then the 2-byte write (register offset,
data). -/
def specWriteRegister8Trace (R : RegMap) (bank reg data : Nat) : List Txn :=
  [Txn.write [R.ISSI_COMMANDREGISTER, bank], Txn.write [reg, data]]

/-- The bus trace of `clear()` on frame `frame` in the words of the
specification: the bank select, then six writes of 25 bytes, offset byte
0x24 + i*24 followed by 24 zero bytes. -/
def specClearTrace (R : RegMap) (frame : Nat) : List Txn :=
  Txn.write [R.ISSI_COMMANDREGISTER, frame] ::
    (List.range 6).map (fun i => Txn.write ((0x24 + i * 24) :: List.replicate 24 0))

/-- The bus trace of a successful initialization in the words of the
specification: shutdown (0x00), wake (0x01), picture-mode config,
displayFrame(0), clear() on frame 0, then the on/off registers 0x00..0x11 of
the banks 0..7 set to 0xFF. -/
def specBeginTrace (R : RegMap) : List Txn :=
  specWriteRegister8Trace R R.ISSI_BANK_FUNCTIONREG R.ISSI_REG_SHUTDOWN 0x00
    ++ specWriteRegister8Trace R R.ISSI_BANK_FUNCTIONREG R.ISSI_REG_SHUTDOWN 0x01
    ++ specWriteRegister8Trace R R.ISSI_BANK_FUNCTIONREG R.ISSI_REG_CONFIG
        R.ISSI_REG_CONFIG_PICTUREMODE
    ++ specWriteRegister8Trace R R.ISSI_BANK_FUNCTIONREG R.ISSI_REG_PICTUREFRAME 0
    ++ specClearTrace R 0
    ++ (List.range 8).flatMap (fun f =>
        (List.range 18).flatMap (fun i => specWriteRegister8Trace R f i 0xFF))

/-! ## The chip's register file -/

/-- The register file of the chip as bus writes change it.  This is the
hardware side, in the terms the specification uses: a bank select holds for
all following register accesses until the next one, and a block write of one
offset byte and n data bytes covers the n consecutive registers starting at
the offset.  `page` is the selected bank, `mem bank reg` the byte stored. -/
structure Chip where
  page : Nat
  mem : Nat → Nat → Nat

/-- One data byte arriving for register address `addr`: the command register
takes it as the bank to select, any other address stores it in the selected
bank. -/
def Chip.store (R : RegMap) (c : Chip) (addr v : Nat) : Chip :=
  if addr = R.ISSI_COMMANDREGISTER then { c with page := v }
  else { c with mem := fun b r => if b = c.page ∧ r = addr then v else c.mem b r }

/-- Data bytes arriving one after another, the first for address `addr`, each
next one for the following address. -/
def Chip.storeFrom (R : RegMap) (c : Chip) (addr : Nat) : List Nat → Chip
  | [] => c
  | v :: vs => Chip.storeFrom R (Chip.store R c addr v) ((addr + 1) % 256) vs

/-- The effect of one bus transaction on the register file: a write is an
address byte followed by data bytes; a read stores nothing. -/
def Chip.step (R : RegMap) (c : Chip) : Txn → Chip
  | Txn.write (addr :: data) => Chip.storeFrom R c addr data
  | Txn.write [] => c
  | Txn.writeThenRead _ _ => c

/-- The register file after a whole trace. -/
def Chip.run (R : RegMap) (c : Chip) (trace : List Txn) : Chip :=
  trace.foldl (Chip.step R) c

/-- The transactions a call issued: what the log holds beyond the log of the
driver the call started from. -/
def issued (before after : Driver) : List Txn :=
  after._i2c_dev.log.drop before._i2c_dev.log.length

/-! ## Trace readings used to state the properties -/

/-- The bank a transaction selects, when it is a bank select: the 2-byte
write (command-register address, bank). -/
def bankSelected (R : RegMap) : Txn → Option Nat
  | Txn.write [c, b] => if c = R.ISSI_COMMANDREGISTER then some b else none
  | _ => none

/-- The register/data transactions of a trace, each with the bank it goes to:
the bank of the latest bank select before it in the trace, starting from
`cur` (none: no bank select so far). -/
def annotate (R : RegMap) : Option Nat → List Txn → List (Option Nat × Txn)
  | _, [] => []
  | cur, t :: ts =>
    match bankSelected R t with
    | some b => annotate R (some b) ts
    | none => (cur, t) :: annotate R cur ts

/-- The registers a block write covers: one for each data byte, counting up
from the offset byte. -/
def blockRegs : Txn → List Nat
  | Txn.write (a :: data) => (List.range data.length).map (fun j => (a + j) % 256)
  | _ => []

/-- The cells a block write stores: each data byte with the register it goes
to, counting up from the offset byte. -/
def blockCells : Txn → List (Nat × Nat)
  | Txn.write (a :: data) =>
    List.zipWith (fun j v => ((a + j) % 256, v)) (List.range data.length) data
  | _ => []

/-- The register a `drawPixel` call writes, read off the transactions it
issues (bank select, then the 2-byte register write); none when it issues
nothing. -/
def writtenReg (R : RegMap) (d : Driver) (x y : Int) (color : Nat) : Option Nat :=
  match issued d (drawPixel R d x y color) with
  | [_, Txn.write [reg, _]] => some reg
  | _ => none

/-- The register writes of a successful initialization, each with the bank it
is meant for: the four function-register writes in the function bank, the six
block writes of `clear()` in bank 0, the on/off writes (i, 0xFF) in their
bank f. -/
def beginTarget (R : RegMap) (e : Option Nat × Txn) : Prop :=
  (e.1 = some R.ISSI_BANK_FUNCTIONREG
      ∧ e.2 ∈ [Txn.write [R.ISSI_REG_SHUTDOWN, 0x00], Txn.write [R.ISSI_REG_SHUTDOWN, 0x01],
          Txn.write [R.ISSI_REG_CONFIG, R.ISSI_REG_CONFIG_PICTUREMODE],
          Txn.write [R.ISSI_REG_PICTUREFRAME, 0]])
    ∨ (∃ i, i < 6 ∧ e = (some 0, Txn.write ((0x24 + i * 24) :: List.replicate 24 0)))
    ∨ (∃ f i, f < 8 ∧ i < 18 ∧ e = (some f, Txn.write [i, 0xFF]))

/-! ## Basic facts about the conversions and the bus -/

theorem toU8_of_lt (n : Nat) (h : n < 256) : toU8 (n : Int) = n := by
  unfold toU8; omega

theorem toI16_of_range (n : Int) (h1 : -32768 ≤ n) (h2 : n ≤ 32767) : toI16 n = n := by
  unfold toI16; omega

theorem writeRegister8_log (R : RegMap) (d : Driver) (bank reg data : Nat) :
    (writeRegister8 R d bank reg data).2._i2c_dev.log
      = d._i2c_dev.log ++ [Txn.write [R.ISSI_COMMANDREGISTER, bank], Txn.write [reg, data]] := by
  simp [writeRegister8, selectBank, I2CDevice.write]

theorem writeRegister8_frame (R : RegMap) (d : Driver) (bank reg data : Nat) :
    (writeRegister8 R d bank reg data).2._frame = d._frame := rfl

theorem writeRegister8_rotation (R : RegMap) (d : Driver) (bank reg data : Nat) :
    (writeRegister8 R d bank reg data).2.rotation = d.rotation := rfl

/-- C1. Rotation 0, pixel (x, y) of the 16 x 9 grid, any color, any current
frame: `drawPixel` is `setLEDPWM (x + 16*y) (min color 255) _frame`, and its
bus trace is the bank select for the current frame followed by one 2-byte
write with register byte 0x24 + x + 16*y. -/
theorem drawPixel_rotation0 (R : RegMap) (d : Driver) (x y color : Nat)
    (hrot : d.rotation = 0) (hx : x < 16) (hy : y < 9) :
    drawPixel R d (x : Int) (y : Int) color
        = setLEDPWM R d (x + 16 * y) (min color 255) d._frame
      ∧ (drawPixel R d (x : Int) (y : Int) color)._i2c_dev.log
        = d._i2c_dev.log ++ [Txn.write [R.ISSI_COMMANDREGISTER, d._frame],
            Txn.write [0x24 + x + 16 * y, min color 255]]
      ∧ (drawPixel R d (x : Int) (y : Int) color)._frame = d._frame := by
  have hidx : toU8 ((x : Int) + (y : Int) * 16) = x + 16 * y := by
    unfold toU8; omega
  have hcol : toU8 ((if color > 255 then 255 else color : Nat) : Int) = min color 255 := by
    unfold toU8; split <;> omega
  have hdp : drawPixel R d (x : Int) (y : Int) color
        = setLEDPWM R d (x + 16 * y) (min color 255) d._frame := by
    have h1 : ¬ ((x : Int) < 0 ∨ (x : Int) ≥ 16) := by omega
    have h2 : ¬ ((y : Int) < 0 ∨ (y : Int) ≥ 9) := by omega
    simp only [drawPixel, hrot, rotate, h1, h2, if_false, hidx, hcol]
  have hreg : toU8 (0x24 + ((x + 16 * y : Nat) : Int)) = 0x24 + x + 16 * y := by
    unfold toU8; omega
  have hled : ¬ (x + 16 * y ≥ 144) := by omega
  refine ⟨hdp, ?_, ?_⟩
  · rw [hdp]; simp only [setLEDPWM, hled, if_false, hreg, writeRegister8_log]
  · rw [hdp]; simp only [setLEDPWM, hled, if_false, writeRegister8_frame]

/-- Witness for C1: pixel (5, 2), color 300, frame 3. -/
theorem drawPixel_rotation0_witness :
    (drawPixel issiRegMap (freshDriver 3 0) 5 2 300)._i2c_dev.log
      = [Txn.write [0xFD, 3], Txn.write [0x24 + 5 + 16 * 2, 255]] :=
  (drawPixel_rotation0 issiRegMap (freshDriver 3 0) 5 2 300 rfl (by decide) (by decide)).2.1

/-- What `drawPixel` does, in one equation: when the remapped coordinates lie
in the grid it is the register write of `setLEDPWM`, otherwise nothing. -/
theorem drawPixel_eq (R : RegMap) (d : Driver) (x y : Int) (color : Nat) :
    drawPixel R d x y color
      = if inGrid (rotate d.rotation x y) then
          (writeRegister8 R d d._frame
            (0x24 + (rotate d.rotation x y).1 + 16 * (rotate d.rotation x y).2).toNat
            (min color 255)).2
        else d := by
  have hcol : toU8 ((if color > 255 then 255 else color : Nat) : Int) = min color 255 := by
    unfold toU8; split <;> omega
  unfold drawPixel
  generalize rotate d.rotation x y = p
  obtain ⟨a, b⟩ := p
  simp only [inGrid]
  by_cases h1 : a < 0 ∨ a ≥ 16
  · have hout : ¬ (0 ≤ a ∧ a < 16 ∧ 0 ≤ b ∧ b < 9) := by omega
    rw [if_pos h1, if_neg hout]
  · rw [if_neg h1]
    by_cases h2 : b < 0 ∨ b ≥ 9
    · have hout : ¬ (0 ≤ a ∧ a < 16 ∧ 0 ≤ b ∧ b < 9) := by omega
      rw [if_pos h2, if_neg hout]
    · have hin : 0 ≤ a ∧ a < 16 ∧ 0 ≤ b ∧ b < 9 := by omega
      rw [if_neg h2, if_pos hin]
      have hidx : toU8 (a + b * 16) = (a + 16 * b).toNat := by unfold toU8; omega
      have hled : ¬ ((a + 16 * b).toNat ≥ 144) := by omega
      have hreg : toU8 (0x24 + (((a + 16 * b).toNat : Nat) : Int)) = (0x24 + a + 16 * b).toNat := by
        unfold toU8; omega
      simp only [hcol, hidx, setLEDPWM, hled, if_false, hreg]

/-- Storing the mirrored coordinate in 16 bits changes nothing about grid
membership: the stored coordinates are in the grid exactly when the
unbounded ones are. -/
theorem inGrid_rotate_iff (r : Nat) (x y : Int) (hr : r < 4)
    (hx : -32768 ≤ x ∧ x ≤ 32767) (hy : -32768 ≤ y ∧ y ≤ 32767) :
    inGrid (rotate r x y) ↔ inGrid (specRemap r x y) := by
  interval_cases r <;> simp only [rotate, specRemap, inGrid, toI16] <;> omega

/-- C2. Clipping: for a rotation in 0..3 and 16-bit signed `x`, `y`, when the
remapped coordinates are outside the 16 x 9 grid (as stored in 16 bits, or as
computed without wrap-around), `drawPixel` leaves the driver as it was: no
bus transaction, same current frame.  The two readings of "outside" agree, so
wrap-around never brings an outside coordinate into the grid. -/
theorem drawPixel_out_of_range (R : RegMap) (d : Driver) (x y : Int) (color : Nat)
    (hrot : d.rotation < 4)
    (hx : -32768 ≤ x ∧ x ≤ 32767) (hy : -32768 ≤ y ∧ y ≤ 32767)
    (hout : ¬ inGrid (rotate d.rotation x y) ∨ ¬ inGrid (specRemap d.rotation x y)) :
    drawPixel R d x y color = d
      ∧ (drawPixel R d x y color)._i2c_dev.log = d._i2c_dev.log
      ∧ (drawPixel R d x y color)._frame = d._frame
      ∧ ¬ inGrid (rotate d.rotation x y) ∧ ¬ inGrid (specRemap d.rotation x y) := by
  have hiff := inGrid_rotate_iff d.rotation x y hrot hx hy
  have h1 : ¬ inGrid (rotate d.rotation x y) := by
    rcases hout with h | h
    · exact h
    · exact fun h2 => h (hiff.mp h2)
  have h2 : ¬ inGrid (specRemap d.rotation x y) := fun h => h1 (hiff.mpr h)
  have hd : drawPixel R d x y color = d := by rw [drawPixel_eq, if_neg h1]
  exact ⟨hd, by rw [hd], by rw [hd], h1, h2⟩

/-- Witness for C2: rotation 2 at x = -32768, where 16 - x - 1 wraps to -32753. -/
theorem drawPixel_out_of_range_witness :
    rotate 2 (-32768) 0 = (-32753, 8)
      ∧ (drawPixel issiRegMap (freshDriver 5 2) (-32768) 0 77)._i2c_dev.log = [] :=
  ⟨by decide,
   (drawPixel_out_of_range issiRegMap (freshDriver 5 2) (-32768) 0 77 (by decide)
      (by decide) (by decide) (Or.inl (by decide))).2.1⟩

/-- C3. Rotation 2 is rotation 0 at the mirrored pixel: for 16-bit `x`, `y`
with 15 - x and 8 - y again 16-bit values, `drawPixel x y c` under rotation 2
leaves the same bus device (same trace: same bank, register and data byte, or
nothing at all) and the same current frame as `drawPixel (15 - x) (8 - y) c`
under rotation 0. -/
theorem drawPixel_rotation2 (R : RegMap) (d : Driver) (x y : Int) (c : Nat)
    (hx : -32768 ≤ x ∧ x ≤ 32767) (hy : -32768 ≤ y ∧ y ≤ 32767)
    (hx2 : -32768 ≤ 15 - x ∧ 15 - x ≤ 32767) (hy2 : -32768 ≤ 8 - y ∧ 8 - y ≤ 32767) :
    (drawPixel R { d with rotation := 2 } x y c)._i2c_dev
        = (drawPixel R { d with rotation := 0 } (15 - x) (8 - y) c)._i2c_dev
      ∧ (drawPixel R { d with rotation := 2 } x y c)._frame
        = (drawPixel R { d with rotation := 0 } (15 - x) (8 - y) c)._frame := by
  have h2 : rotate 2 x y = (15 - x, 8 - y) := by
    simp only [rotate, toI16, Prod.mk.injEq]; omega
  have h0 : rotate 0 (15 - x) (8 - y) = (15 - x, 8 - y) := rfl
  rw [drawPixel_eq, drawPixel_eq]
  simp only [h2, h0]
  by_cases h : inGrid (15 - x, 8 - y)
  · rw [if_pos h, if_pos h]; exact ⟨rfl, rfl⟩
  · rw [if_neg h, if_neg h]; exact ⟨rfl, rfl⟩

/-- Witness for C3: pixel (2, 1) under rotation 2 is pixel (13, 7) under
rotation 0. -/
theorem drawPixel_rotation2_witness :
    (drawPixel issiRegMap { freshDriver 4 0 with rotation := 2 } 2 1 9)._i2c_dev.log
      = (drawPixel issiRegMap { freshDriver 4 0 with rotation := 0 } (15 - 2) (8 - 1) 9)._i2c_dev.log :=
  congrArg I2CDevice.log
    (drawPixel_rotation2 issiRegMap (freshDriver 4 0) 2 1 9
      (by decide) (by decide) (by decide) (by decide)).1

/-- C4. Rotation 1 (swap, then mirror x): for 16-bit `x`, `y`, the trace of
`drawPixel x y c` is, for x in [0,9) and y in [0,16), the bank select of the
current frame followed by the write of min c 255 to register
0x24 + (15 - y) + 16*x, and for every other (x, y) nothing; the current frame
is kept. -/
theorem drawPixel_rotation1 (R : RegMap) (d : Driver) (x y : Int) (c : Nat)
    (hrot : d.rotation = 1)
    (hx : -32768 ≤ x ∧ x ≤ 32767) (hy : -32768 ≤ y ∧ y ≤ 32767) :
    (drawPixel R d x y c)._i2c_dev.log
        = d._i2c_dev.log ++
          (if 0 ≤ x ∧ x < 9 ∧ 0 ≤ y ∧ y < 16 then
            [Txn.write [R.ISSI_COMMANDREGISTER, d._frame],
             Txn.write [(0x24 + (15 - y) + 16 * x).toNat, min c 255]]
           else [])
      ∧ (drawPixel R d x y c)._frame = d._frame
      ∧ (¬ (0 ≤ x ∧ x < 9 ∧ 0 ≤ y ∧ y < 16) → drawPixel R d x y c = d) := by
  have h1 : rotate 1 x y = (toI16 (16 - y - 1), x) := rfl
  rw [drawPixel_eq, hrot, h1]
  by_cases h : 0 ≤ x ∧ x < 9 ∧ 0 ≤ y ∧ y < 16
  · have hw : toI16 (16 - y - 1) = 15 - y := by unfold toI16; omega
    have hg : inGrid (15 - y, x) := by unfold inGrid; simp only; omega
    rw [hw, if_pos hg, if_pos h]
    exact ⟨writeRegister8_log _ _ _ _ _, rfl, fun hn => absurd h hn⟩
  · have hg : ¬ inGrid (toI16 (16 - y - 1), x) := by
      unfold inGrid toI16; simp only; omega
    rw [if_neg hg, if_neg h]
    exact ⟨(List.append_nil _).symm, rfl, fun _ => rfl⟩

/-- Witness for C4: pixel (2, 3) under rotation 1 goes to register
0x24 + 12 + 32. -/
theorem drawPixel_rotation1_witness :
    (drawPixel issiRegMap (freshDriver 6 1) 2 3 40)._i2c_dev.log
      = [Txn.write [0xFD, 6], Txn.write [0x24 + (15 - 3) + 16 * 2, 40]] :=
  (drawPixel_rotation1 issiRegMap (freshDriver 6 1) 2 3 40 rfl (by decide) (by decide)).1

/-- C5. Rotation 3 (swap, then mirror y): for 16-bit `x`, `y`, the trace of
`drawPixel x y c` is, for x in [0,9) and y in [0,16), the bank select of the
current frame followed by the write of min c 255 to register
0x24 + y + 16*(8 - x), and for every other (x, y) nothing; the current frame
is kept. -/
theorem drawPixel_rotation3 (R : RegMap) (d : Driver) (x y : Int) (c : Nat)
    (hrot : d.rotation = 3)
    (hx : -32768 ≤ x ∧ x ≤ 32767) (hy : -32768 ≤ y ∧ y ≤ 32767) :
    (drawPixel R d x y c)._i2c_dev.log
        = d._i2c_dev.log ++
          (if 0 ≤ x ∧ x < 9 ∧ 0 ≤ y ∧ y < 16 then
            [Txn.write [R.ISSI_COMMANDREGISTER, d._frame],
             Txn.write [(0x24 + y + 16 * (8 - x)).toNat, min c 255]]
           else [])
      ∧ (drawPixel R d x y c)._frame = d._frame
      ∧ (¬ (0 ≤ x ∧ x < 9 ∧ 0 ≤ y ∧ y < 16) → drawPixel R d x y c = d) := by
  have h3 : rotate 3 x y = (y, toI16 (9 - x - 1)) := rfl
  rw [drawPixel_eq, hrot, h3]
  by_cases h : 0 ≤ x ∧ x < 9 ∧ 0 ≤ y ∧ y < 16
  · have hw : toI16 (9 - x - 1) = 8 - x := by unfold toI16; omega
    have hg : inGrid (y, 8 - x) := by unfold inGrid; simp only; omega
    rw [hw, if_pos hg, if_pos h]
    exact ⟨writeRegister8_log _ _ _ _ _, rfl, fun hn => absurd h hn⟩
  · have hg : ¬ inGrid (y, toI16 (9 - x - 1)) := by
      unfold inGrid toI16; simp only; omega
    rw [if_neg hg, if_neg h]
    exact ⟨(List.append_nil _).symm, rfl, fun _ => rfl⟩

/-- Witness for C5: pixel (2, 3) under rotation 3 goes to register
0x24 + 3 + 16*6. -/
theorem drawPixel_rotation3_witness :
    (drawPixel issiRegMap (freshDriver 6 3) 2 3 40)._i2c_dev.log
      = [Txn.write [0xFD, 6], Txn.write [0x24 + 3 + 16 * (8 - 2), 40]] :=
  (drawPixel_rotation3 issiRegMap (freshDriver 6 3) 2 3 40 rfl (by decide) (by decide)).1

/-- C6. Clamping: whenever the remapped pixel lies in the grid, the bus trace of
`drawPixel` is the bank select followed by one register write whose data byte
is min color 255: exactly 255 for a color above 255, the color itself
otherwise. -/
theorem drawPixel_color_clamped (R : RegMap) (d : Driver) (x y : Int) (color : Nat)
    (hin : inGrid (rotate d.rotation x y)) :
    (drawPixel R d x y color)._i2c_dev.log
        = d._i2c_dev.log ++ [Txn.write [R.ISSI_COMMANDREGISTER, d._frame],
            Txn.write [(0x24 + (rotate d.rotation x y).1 + 16 * (rotate d.rotation x y).2).toNat,
              min color 255]]
      ∧ (255 < color →
          (drawPixel R d x y color)._i2c_dev.log
            = d._i2c_dev.log ++ [Txn.write [R.ISSI_COMMANDREGISTER, d._frame],
                Txn.write [(0x24 + (rotate d.rotation x y).1
                    + 16 * (rotate d.rotation x y).2).toNat, 255]])
      ∧ (color ≤ 255 →
          (drawPixel R d x y color)._i2c_dev.log
            = d._i2c_dev.log ++ [Txn.write [R.ISSI_COMMANDREGISTER, d._frame],
                Txn.write [(0x24 + (rotate d.rotation x y).1
                    + 16 * (rotate d.rotation x y).2).toNat, color]]) := by
  have hlog : (drawPixel R d x y color)._i2c_dev.log
        = d._i2c_dev.log ++ [Txn.write [R.ISSI_COMMANDREGISTER, d._frame],
            Txn.write [(0x24 + (rotate d.rotation x y).1 + 16 * (rotate d.rotation x y).2).toNat,
              min color 255]] := by
    rw [drawPixel_eq, if_pos hin, writeRegister8_log]
  refine ⟨hlog, fun h => ?_, fun h => ?_⟩
  · rw [hlog, Nat.min_eq_right (Nat.le_of_lt h)]
  · rw [hlog, Nat.min_eq_left h]

/-- Witness for C6: color 0x1F0 (whose low byte is 0xF0) at pixel (4, 7) is
written as 255. -/
theorem drawPixel_color_clamped_witness :
    (drawPixel issiRegMap (freshDriver 1 0) 4 7 0x1F0)._i2c_dev.log
      = [Txn.write [0xFD, 1], Txn.write [0x24 + 4 + 16 * 7, 255]] :=
  (drawPixel_color_clamped issiRegMap (freshDriver 1 0) 4 7 0x1F0 (by decide)).1

/-- C7. The guard of `setLEDPWM`: the call issues bus transactions exactly when
lednum < 144.  For lednum >= 144 the driver (and so the trace) is unchanged;
for lednum < 144 the call is `writeRegister8 bank (0x24 + lednum) pwm`, its
trace the bank select and the register write, and the register byte lies in
0x24..0xB3, below 256. -/
theorem setLEDPWM_guard (R : RegMap) (d : Driver) (lednum pwm bank : Nat) :
    ((setLEDPWM R d lednum pwm bank)._i2c_dev.log ≠ d._i2c_dev.log ↔ lednum < 144)
      ∧ (144 ≤ lednum → setLEDPWM R d lednum pwm bank = d)
      ∧ (lednum < 144 →
          setLEDPWM R d lednum pwm bank = (writeRegister8 R d bank (0x24 + lednum) pwm).2
          ∧ (setLEDPWM R d lednum pwm bank)._i2c_dev.log
              = d._i2c_dev.log ++ [Txn.write [R.ISSI_COMMANDREGISTER, bank],
                  Txn.write [0x24 + lednum, pwm]]
          ∧ 0x24 ≤ 0x24 + lednum ∧ 0x24 + lednum ≤ 0xB3 ∧ 0x24 + lednum < 256) := by
  have hge : 144 ≤ lednum → setLEDPWM R d lednum pwm bank = d := by
    intro h; unfold setLEDPWM; rw [if_pos h]
  have hlt : lednum < 144 →
      setLEDPWM R d lednum pwm bank = (writeRegister8 R d bank (0x24 + lednum) pwm).2 := by
    intro h
    have hreg : toU8 (0x24 + (lednum : Int)) = 0x24 + lednum := by unfold toU8; omega
    unfold setLEDPWM; rw [if_neg (by omega), hreg]
  refine ⟨⟨fun hne => ?_, fun h => ?_⟩, hge, fun h => ⟨hlt h, ?_, by omega, by omega, by omega⟩⟩
  · by_contra hn
    exact hne (by rw [hge (by omega)])
  · rw [hlt h, writeRegister8_log]
    intro heq
    have := congrArg List.length heq
    simp at this
  · rw [hlt h, writeRegister8_log]

/-- C8. The trace of `clear`: the bank select of the current frame, then
exactly six 25-byte writes, each an offset byte followed by 24 zero bytes, the
offset bytes being 0x24, 0x3C, 0x54, 0x6C, 0x84, 0x9C = 0x24 + 24*i in this
order; nothing else is issued and the current frame is unchanged. -/
theorem clear_trace (R : RegMap) (d : Driver) :
    (clear R d)._i2c_dev.log
        = d._i2c_dev.log ++ Txn.write [R.ISSI_COMMANDREGISTER, d._frame] ::
            [0x24, 0x3C, 0x54, 0x6C, 0x84, 0x9C].map
              (fun o => Txn.write (o :: List.replicate 24 0))
      ∧ [0x24, 0x3C, 0x54, 0x6C, 0x84, 0x9C] = (List.range 6).map (fun i => 0x24 + i * 24)
      ∧ (∀ o : Nat, (o :: List.replicate 24 0).length = 25)
      ∧ (clear R d)._frame = d._frame
      ∧ (clear R d).rotation = d.rotation := by
  refine ⟨?_, by decide, fun o => by simp, rfl, rfl⟩
  simp [clear, selectBank, I2CDevice.write, List.range_succ, toU8, List.replicate]

theorem foldl_writeRegister8_log (R : RegMap) (f v : Nat) (l : List Nat) (d : Driver) :
    (l.foldl (fun d i => (writeRegister8 R d f i v).2) d)._i2c_dev.log
      = d._i2c_dev.log ++ l.flatMap (fun i => specWriteRegister8Trace R f i v) := by
  induction l generalizing d with
  | nil => simp
  | cons i l ih =>
    rw [List.foldl_cons, ih, writeRegister8_log, List.flatMap_cons, List.append_assoc]
    rfl

theorem foldl_foldl_writeRegister8_log (R : RegMap) (v : Nat) (l2 : List Nat) (l1 : List Nat)
    (d : Driver) :
    (l1.foldl (fun d f => l2.foldl (fun d i => (writeRegister8 R d f i v).2) d) d)._i2c_dev.log
      = d._i2c_dev.log
        ++ l1.flatMap (fun f => l2.flatMap (fun i => specWriteRegister8Trace R f i v)) := by
  induction l1 generalizing d with
  | nil => simp
  | cons f l1 ih =>
    rw [List.foldl_cons, ih, foldl_writeRegister8_log, List.flatMap_cons, List.append_assoc]

theorem foldl_writeRegister8_frame (R : RegMap) (f v : Nat) (l : List Nat) (d : Driver) :
    (l.foldl (fun d i => (writeRegister8 R d f i v).2) d)._frame = d._frame := by
  induction l generalizing d with
  | nil => rfl
  | cons i l ih => rw [List.foldl_cons, ih, writeRegister8_frame]

theorem foldl_foldl_writeRegister8_frame (R : RegMap) (v : Nat) (l2 : List Nat) (l1 : List Nat)
    (d : Driver) :
    (l1.foldl (fun d f => l2.foldl (fun d i => (writeRegister8 R d f i v).2) d) d)._frame
      = d._frame := by
  induction l1 generalizing d with
  | nil => rfl
  | cons f l1 ih => rw [List.foldl_cons, ih, foldl_writeRegister8_frame]

theorem clear_frame (R : RegMap) (d : Driver) : (clear R d)._frame = d._frame := rfl

theorem displayFrame_frame (R : RegMap) (d : Driver) (frame : Nat) :
    (displayFrame R d frame)._frame = d._frame := rfl

theorem length_flatMap_const {α β : Type} (l : List α) (f : α → List β) (k : Nat)
    (h : ∀ a, (f a).length = k) : (l.flatMap f).length = l.length * k := by
  induction l with
  | nil => simp
  | cons a l ih =>
    rw [List.flatMap_cons, List.length_append, ih, h a, List.length_cons, Nat.succ_mul]
    omega

theorem clear_log (R : RegMap) (d : Driver) :
    (clear R d)._i2c_dev.log = d._i2c_dev.log ++ specClearTrace R d._frame := by
  simp [clear, specClearTrace, selectBank, I2CDevice.write, List.range_succ, toU8,
    List.replicate]

theorem displayFrame_log (R : RegMap) (d : Driver) (frame : Nat) :
    (displayFrame R d frame)._i2c_dev.log
      = d._i2c_dev.log ++ specWriteRegister8Trace R R.ISSI_BANK_FUNCTIONREG
          R.ISSI_REG_PICTUREFRAME (if frame > 7 then 0 else frame) := by
  unfold displayFrame
  rw [writeRegister8_log]; rfl

/-- With the device detected, `begin` is its bring-up sequence. -/
theorem begin_of_detected (R : RegMap) (d : Driver) (hdet : d._i2c_dev.detected = true) :
    begin R d = (true,
      (List.range 8).foldl
        (fun d f => (List.range 18).foldl (fun d i => (writeRegister8 R d f i 0xFF).2) d)
        (clear R (displayFrame R
          (writeRegister8 R
            (writeRegister8 R
              (writeRegister8 R { d with _frame := 0 }
                R.ISSI_BANK_FUNCTIONREG R.ISSI_REG_SHUTDOWN 0x00).2
              R.ISSI_BANK_FUNCTIONREG R.ISSI_REG_SHUTDOWN 0x01).2
            R.ISSI_BANK_FUNCTIONREG R.ISSI_REG_CONFIG R.ISSI_REG_CONFIG_PICTUREMODE).2
          0))) := by
  unfold begin
  rw [hdet]
  rfl

theorem begin_log (R : RegMap) (d : Driver) (hdet : d._i2c_dev.detected = true) :
    (begin R d).2._i2c_dev.log = d._i2c_dev.log ++ specBeginTrace R := by
  rw [begin_of_detected R d hdet]
  simp only [foldl_foldl_writeRegister8_log, clear_log, displayFrame_log, writeRegister8_log]
  simp [specBeginTrace, specWriteRegister8Trace, writeRegister8_frame, displayFrame_frame]

theorem begin_issued (R : RegMap) (d : Driver) (hdet : d._i2c_dev.detected = true) :
    issued d (begin R d).2 = specBeginTrace R := by
  unfold issued; rw [begin_log R d hdet]; simp

/-- C9. A successful initialization: when the presence probe succeeds, `begin`
returns true, leaves the current frame at 0, is the sequence of member calls
shutdown 0x00, shutdown 0x01, picture-mode config, displayFrame(0), clear(),
then `writeRegister8 f i 0xFF` for f = 0..7 and i = 0x00..0x11 in this order,
and the bus trace it issues is exactly the trace the specification lists
(whose last part consists of 8*18 = 144 register writes). -/
theorem begin_trace (R : RegMap) (d : Driver) (hdet : d._i2c_dev.detected = true) :
    (begin R d).1 = true
      ∧ (begin R d).2._frame = 0
      ∧ (begin R d).2
          = (List.range 8).foldl
              (fun d f => (List.range 18).foldl (fun d i => (writeRegister8 R d f i 0xFF).2) d)
              (clear R (displayFrame R
                (writeRegister8 R
                  (writeRegister8 R
                    (writeRegister8 R { d with _frame := 0 }
                      R.ISSI_BANK_FUNCTIONREG R.ISSI_REG_SHUTDOWN 0x00).2
                    R.ISSI_BANK_FUNCTIONREG R.ISSI_REG_SHUTDOWN 0x01).2
                  R.ISSI_BANK_FUNCTIONREG R.ISSI_REG_CONFIG R.ISSI_REG_CONFIG_PICTUREMODE).2
                0))
      ∧ (begin R d).2._i2c_dev.log = d._i2c_dev.log ++ specBeginTrace R
      ∧ issued d (begin R d).2 = specBeginTrace R
      ∧ ((List.range 8).flatMap (fun f =>
          (List.range 18).flatMap (fun i => specWriteRegister8Trace R f i 0xFF))).length
          = 2 * 144 := by
  have hb := begin_of_detected R d hdet
  refine ⟨by rw [hb], ?_, by rw [hb], begin_log R d hdet, begin_issued R d hdet, ?_⟩
  · rw [hb]
    simp only [foldl_foldl_writeRegister8_frame, clear_frame, displayFrame_frame,
      writeRegister8_frame]
  · have h2 : ∀ f i : Nat, (specWriteRegister8Trace R f i 0xFF).length = 2 := fun _ _ => rfl
    have h36 : ∀ f : Nat,
        ((List.range 18).flatMap (fun i => specWriteRegister8Trace R f i 0xFF)).length = 36 :=
      fun f => by rw [length_flatMap_const _ _ 2 (h2 f), List.length_range]
    rw [length_flatMap_const _ _ 36 h36, List.length_range]

/-- Witness for C9: a present device, the driver on frame 5 before the call. -/
theorem begin_trace_witness :
    (begin issiRegMap (freshDriver 5 1)).1 = true
      ∧ (begin issiRegMap (freshDriver 5 1)).2._frame = 0
      ∧ (begin issiRegMap (freshDriver 5 1)).2._i2c_dev.log
          = (freshDriver 5 1)._i2c_dev.log ++ specBeginTrace issiRegMap :=
  ⟨(begin_trace issiRegMap (freshDriver 5 1) rfl).1,
   (begin_trace issiRegMap (freshDriver 5 1) rfl).2.1,
   (begin_trace issiRegMap (freshDriver 5 1) rfl).2.2.2.1⟩

/-! ## The register file under the driver's traces -/

theorem Chip.run_append (R : RegMap) (c : Chip) (t1 t2 : List Txn) :
    Chip.run R c (t1 ++ t2) = Chip.run R (Chip.run R c t1) t2 := by
  unfold Chip.run; rw [List.foldl_append]

theorem Chip.run_cons (R : RegMap) (c : Chip) (t : Txn) (ts : List Txn) :
    Chip.run R c (t :: ts) = Chip.run R (Chip.step R c t) ts := rfl

theorem Chip.run_nil (R : RegMap) (c : Chip) : Chip.run R c [] = c := rfl

/-- A bank-select transaction selects the bank and stores nothing. -/
theorem Chip.step_select (R : RegMap) (c : Chip) (bank : Nat) :
    Chip.step R c (Txn.write [R.ISSI_COMMANDREGISTER, bank]) = { c with page := bank } := by
  simp [Chip.step, Chip.storeFrom, Chip.store]

/-- The two transactions of a `writeRegister8` change no cell of the register
file other than `(bank, reg)`. -/
theorem Chip.run_writeRegister8_other (R : RegMap) (c : Chip) (bank reg v b r : Nat)
    (h : ¬ (b = bank ∧ r = reg)) :
    (Chip.run R c (specWriteRegister8Trace R bank reg v)).mem b r = c.mem b r := by
  unfold specWriteRegister8Trace
  rw [Chip.run_cons, Chip.step_select, Chip.run_cons, Chip.run_nil]
  simp only [Chip.step, Chip.storeFrom, Chip.store]
  by_cases hc : reg = R.ISSI_COMMANDREGISTER
  · rw [if_pos hc]
  · rw [if_neg hc]
    simp only
    rw [if_neg h]

/-- A family of traces none of which changes the cell `(b, r)` does not change
it when run one after another. -/
theorem Chip.run_flatMap_other (R : RegMap) (b r : Nat) (f : Nat → List Txn) (l : List Nat)
    (h : ∀ a ∈ l, ∀ c : Chip, (Chip.run R c (f a)).mem b r = c.mem b r) (c : Chip) :
    (Chip.run R c (l.flatMap f)).mem b r = c.mem b r := by
  induction l generalizing c with
  | nil => rfl
  | cons a l ih =>
    rw [List.flatMap_cons, Chip.run_append,
      ih (fun a2 h2 => h a2 (List.mem_cons_of_mem _ h2)), h a (List.mem_cons_self _ _)]

/-- A block of `n` zero bytes from address `addr` on, staying below the command
register: the bank stays selected and exactly the cells `addr .. addr+n-1` of
the selected bank become 0. -/
theorem Chip.storeFrom_zeros (R : RegMap) (n : Nat) (c : Chip) (addr : Nat)
    (ha : addr + n ≤ 0xB4) (hcmd : 0xB4 ≤ R.ISSI_COMMANDREGISTER) :
    (Chip.storeFrom R c addr (List.replicate n 0)).page = c.page
      ∧ ∀ b r, (Chip.storeFrom R c addr (List.replicate n 0)).mem b r
          = if b = c.page ∧ addr ≤ r ∧ r < addr + n then 0 else c.mem b r := by
  induction n generalizing c addr with
  | zero =>
    refine ⟨rfl, fun b r => ?_⟩
    rw [if_neg (by omega)]; rfl
  | succ n ih =>
    have hne : addr ≠ R.ISSI_COMMANDREGISTER := by omega
    have hmod : (addr + 1) % 256 = addr + 1 := by omega
    have hst : Chip.store R c addr 0
        = { c with mem := fun b r => if b = c.page ∧ r = addr then 0 else c.mem b r } := by
      unfold Chip.store; rw [if_neg hne]
    rw [List.replicate_succ]
    simp only [Chip.storeFrom]
    rw [hmod, hst]
    obtain ⟨hp, hm⟩ := ih { c with mem := fun b r => if b = c.page ∧ r = addr then 0 else c.mem b r }
      (addr + 1) (by omega)
    refine ⟨hp, fun b r => ?_⟩
    rw [hm b r]
    simp only
    by_cases h1 : b = c.page ∧ addr + 1 ≤ r ∧ r < addr + 1 + n
    · rw [if_pos h1, if_pos (by omega)]
    · rw [if_neg h1]
      by_cases h2 : b = c.page ∧ r = addr
      · rw [if_pos h2, if_pos (by omega)]
      · rw [if_neg h2, if_neg (by omega)]

theorem Chip.step_write_cons (R : RegMap) (c : Chip) (a : Nat) (data : List Nat) :
    Chip.step R c (Txn.write (a :: data)) = Chip.storeFrom R c a data := rfl

/-- The register file after the trace of `clear()` on frame `frame`: the 144
PWM cells 0x24..0xB3 of that bank are 0, every other cell is as before. -/
theorem Chip.run_clear (R : RegMap) (c : Chip) (frame : Nat)
    (hcmd : 0xB4 ≤ R.ISSI_COMMANDREGISTER) (b r : Nat) :
    (Chip.run R c (specClearTrace R frame)).mem b r
      = if b = frame ∧ 0x24 ≤ r ∧ r ≤ 0xB3 then 0 else c.mem b r := by
  have hstep : ∀ (c : Chip) (a : Nat), a + 24 ≤ 0xB4 →
      (Chip.step R c (Txn.write (a :: List.replicate 24 0))).page = c.page
        ∧ ∀ b r, (Chip.step R c (Txn.write (a :: List.replicate 24 0))).mem b r
            = if b = c.page ∧ a ≤ r ∧ r < a + 24 then 0 else c.mem b r :=
    fun c a ha => by
      rw [Chip.step_write_cons]; exact Chip.storeFrom_zeros R 24 c a ha hcmd
  have hl : specClearTrace R frame
      = [Txn.write [R.ISSI_COMMANDREGISTER, frame],
         Txn.write (0x24 :: List.replicate 24 0), Txn.write (0x3C :: List.replicate 24 0),
         Txn.write (0x54 :: List.replicate 24 0), Txn.write (0x6C :: List.replicate 24 0),
         Txn.write (0x84 :: List.replicate 24 0), Txn.write (0x9C :: List.replicate 24 0)] := rfl
  rw [hl]
  simp only [Chip.run_cons, Chip.run_nil, Chip.step_select]
  generalize hc0 : ({ c with page := frame } : Chip) = c0
  have hp0 : c0.page = frame := by rw [← hc0]
  have hm0 : ∀ b r, c0.mem b r = c.mem b r := by intro b r; rw [← hc0]
  obtain ⟨p1, m1⟩ := hstep c0 0x24 (by decide)
  generalize Chip.step R c0 (Txn.write (0x24 :: List.replicate 24 0)) = c1 at p1 m1 ⊢
  obtain ⟨p2, m2⟩ := hstep c1 0x3C (by decide)
  generalize Chip.step R c1 (Txn.write (0x3C :: List.replicate 24 0)) = c2 at p2 m2 ⊢
  obtain ⟨p3, m3⟩ := hstep c2 0x54 (by decide)
  generalize Chip.step R c2 (Txn.write (0x54 :: List.replicate 24 0)) = c3 at p3 m3 ⊢
  obtain ⟨p4, m4⟩ := hstep c3 0x6C (by decide)
  generalize Chip.step R c3 (Txn.write (0x6C :: List.replicate 24 0)) = c4 at p4 m4 ⊢
  obtain ⟨p5, m5⟩ := hstep c4 0x84 (by decide)
  generalize Chip.step R c4 (Txn.write (0x84 :: List.replicate 24 0)) = c5 at p5 m5 ⊢
  obtain ⟨_, m6⟩ := hstep c5 0x9C (by decide)
  rw [m6, m5, m4, m3, m2, m1, hm0, p5, p4, p3, p2, p1, hp0]
  split_ifs <;> first | rfl | omega

/-- The register file after the trace of a successful initialization: the PWM
cells 0x24..0xB3 of bank 0 are 0, and outside bank 0 and the function bank
every cell from 0x12 upwards is as it was before. -/
theorem Chip.run_specBeginTrace (R : RegMap) (c : Chip)
    (hcmd : 0xB4 ≤ R.ISSI_COMMANDREGISTER) :
    (∀ r, 0x24 ≤ r → r ≤ 0xB3 → (Chip.run R c (specBeginTrace R)).mem 0 r = 0)
      ∧ (∀ b r, b ≠ 0 → b ≠ R.ISSI_BANK_FUNCTIONREG → 0x12 ≤ r →
          (Chip.run R c (specBeginTrace R)).mem b r = c.mem b r) := by
  have hT3 : ∀ (c : Chip) (b r : Nat), 0x12 ≤ r →
      (Chip.run R c ((List.range 8).flatMap (fun f =>
        (List.range 18).flatMap (fun i => specWriteRegister8Trace R f i 0xFF)))).mem b r
        = c.mem b r := by
    intro c b r hr
    apply Chip.run_flatMap_other
    intro f _ c2
    apply Chip.run_flatMap_other
    intro i hi c3
    apply Chip.run_writeRegister8_other
    have := List.mem_range.mp hi
    omega
  constructor
  · intro r h1 h2
    unfold specBeginTrace
    rw [Chip.run_append, hT3 _ _ _ (by omega), Chip.run_append, Chip.run_clear R _ 0 hcmd,
      if_pos ⟨rfl, h1, h2⟩]
  · intro b r hb0 hbf hr
    unfold specBeginTrace
    rw [Chip.run_append, hT3 _ _ _ hr, Chip.run_append, Chip.run_clear R _ 0 hcmd,
      if_neg (fun h => hb0 h.1), Chip.run_append, Chip.run_append, Chip.run_append,
      Chip.run_writeRegister8_other _ _ _ _ _ _ _ (fun h => hbf h.1),
      Chip.run_writeRegister8_other _ _ _ _ _ _ _ (fun h => hbf h.1),
      Chip.run_writeRegister8_other _ _ _ _ _ _ _ (fun h => hbf h.1),
      Chip.run_writeRegister8_other _ _ _ _ _ _ _ (fun h => hbf h.1)]

/-- C10, as the code has it. After a successful initialization the PWM values
of frame 0, the current frame, are zero, and only those: run on a register
file with arbitrary prior contents (command register above the PWM region,
function bank not one of the frame banks 0..7), the trace `begin` issues
leaves 0 in every PWM register 0x24..0xB3 of bank 0, and leaves every PWM
register of the banks 1..7 with the content it had before. -/
theorem begin_clears_frame0_pwm (R : RegMap) (d : Driver) (c : Chip)
    (hdet : d._i2c_dev.detected = true)
    (hcmd : 0xB4 ≤ R.ISSI_COMMANDREGISTER) (hfb : 8 ≤ R.ISSI_BANK_FUNCTIONREG) :
    (begin R d).1 = true
      ∧ (∀ reg, 0x24 ≤ reg → reg ≤ 0xB3 →
          (Chip.run R c (issued d (begin R d).2)).mem 0 reg = 0)
      ∧ (∀ f reg, 1 ≤ f → f < 8 → 0x24 ≤ reg → reg ≤ 0xB3 →
          (Chip.run R c (issued d (begin R d).2)).mem f reg = c.mem f reg) := by
  rw [begin_issued R d hdet]
  refine ⟨by rw [begin_of_detected R d hdet], (Chip.run_specBeginTrace R c hcmd).1, ?_⟩
  intro f reg h1 h8 hr _
  exact (Chip.run_specBeginTrace R c hcmd).2 f reg (by omega) (by omega) (by omega)

/-- Witness for C10 as amended: the register map of the chip, a register file
holding 0x55 everywhere. -/
theorem begin_clears_frame0_pwm_witness :
    (Chip.run issiRegMap ⟨0, fun _ _ => 0x55⟩
        (issued (freshDriver 0 0) (begin issiRegMap (freshDriver 0 0)).2)).mem 0 0x24 = 0
      ∧ (Chip.run issiRegMap ⟨0, fun _ _ => 0x55⟩
        (issued (freshDriver 0 0) (begin issiRegMap (freshDriver 0 0)).2)).mem 7 0xB3 = 0x55 :=
  ⟨(begin_clears_frame0_pwm issiRegMap (freshDriver 0 0) ⟨0, fun _ _ => 0x55⟩ rfl
      (by decide) (by decide)).2.1 0x24 (by decide) (by decide),
   (begin_clears_frame0_pwm issiRegMap (freshDriver 0 0) ⟨0, fun _ _ => 0x55⟩ rfl
      (by decide) (by decide)).2.2 7 0xB3 (by decide) (by decide) (by decide) (by decide)⟩

/-- Counterexample to C10 as stated: on a register file holding 0x55
everywhere, a successful `begin` does not leave all 8 * 144 PWM bytes at 0;
register 0x24 of bank 1 still holds 0x55. -/
theorem begin_does_not_clear_all_frames :
    (begin issiRegMap (freshDriver 0 0)).1 = true
      ∧ (Chip.run issiRegMap ⟨0, fun _ _ => 0x55⟩
          (issued (freshDriver 0 0) (begin issiRegMap (freshDriver 0 0)).2)).mem 1 0x24 = 0x55
      ∧ ¬ (∀ f reg, f < 8 → 0x24 ≤ reg → reg ≤ 0xB3 →
          (Chip.run issiRegMap ⟨0, fun _ _ => 0x55⟩
            (issued (freshDriver 0 0) (begin issiRegMap (freshDriver 0 0)).2)).mem f reg = 0) := by
  have h : (Chip.run issiRegMap ⟨0, fun _ _ => 0x55⟩
      (issued (freshDriver 0 0) (begin issiRegMap (freshDriver 0 0)).2)).mem 1 0x24 = 0x55 := by
    rw [begin_issued issiRegMap (freshDriver 0 0) rfl]
    exact (Chip.run_specBeginTrace issiRegMap ⟨0, fun _ _ => 0x55⟩ (by decide)).2 1 0x24
      (by decide) (by decide) (by decide)
  refine ⟨by rw [begin_of_detected issiRegMap (freshDriver 0 0) rfl], h, fun hall => ?_⟩
  have h0 := hall 1 0x24 (by decide) (by decide) (by decide)
  rw [h] at h0
  exact absurd h0 (by decide)

/-! ## Return values, the register-level helpers and the pixel map -/

theorem issued_of_log (d d2 : Driver) (t : List Txn)
    (h : d2._i2c_dev.log = d._i2c_dev.log ++ t) : issued d d2 = t := by
  unfold issued; rw [h]; simp

theorem issued_self (d : Driver) : issued d d = [] := by
  unfold issued; simp

/-- C11. `begin` fails exactly when the presence probe fails: it returns false
iff the device is not detected; in that case the driver is left as it was (no
bus transaction at all); and with the device detected it returns true for
every acknowledgment oracle, that is whatever status the setup writes get. -/
theorem begin_fails_iff_probe_fails (R : RegMap) (d : Driver) :
    ((begin R d).1 = false ↔ d._i2c_dev.detected = false)
      ∧ (d._i2c_dev.detected = false →
          begin R d = (false, d) ∧ issued d (begin R d).2 = [])
      ∧ (d._i2c_dev.detected = true →
          ∀ ack : Nat → Bool,
            (begin R { d with _i2c_dev := { d._i2c_dev with ack := ack } }).1 = true) := by
  have hf : d._i2c_dev.detected = false → begin R d = (false, d) := by
    intro h; unfold begin; rw [h]; rfl
  have ht : ∀ d2 : Driver, d2._i2c_dev.detected = true → (begin R d2).1 = true := by
    intro d2 h; rw [begin_of_detected R d2 h]
  refine ⟨⟨fun h => ?_, fun h => by rw [hf h]⟩, fun h => ⟨hf h, by rw [hf h]; exact issued_self d⟩,
    fun h ack => ht _ h⟩
  cases hd : d._i2c_dev.detected with
  | false => rfl
  | true => rw [ht d hd] at h; exact absurd h (by decide)

/-- C13. `setFrame v`, for any value `v` (no range check): the bus device and
the rotation are untouched, so no transaction is issued, and the current
frame becomes `v`; a following `drawPixel` of a pixel in the grid then issues
the bank select of `v` before its register write. -/
theorem setFrame_effect (R : RegMap) (d : Driver) (v : Nat) (x y : Int) (color : Nat)
    (hin : inGrid (rotate d.rotation x y)) :
    (setFrame d v)._i2c_dev = d._i2c_dev
      ∧ issued d (setFrame d v) = []
      ∧ (setFrame d v).rotation = d.rotation
      ∧ (setFrame d v)._frame = v
      ∧ issued (setFrame d v) (drawPixel R (setFrame d v) x y color)
          = [Txn.write [R.ISSI_COMMANDREGISTER, v],
             Txn.write [(0x24 + (rotate d.rotation x y).1 + 16 * (rotate d.rotation x y).2).toNat,
               min color 255]] := by
  refine ⟨rfl, issued_self d, rfl, rfl, ?_⟩
  apply issued_of_log
  have hin2 : inGrid (rotate (setFrame d v).rotation x y) := hin
  rw [drawPixel_eq, if_pos hin2, writeRegister8_log]
  rfl

/-- Witness for C13: frame value 200, beyond the 8 frames, then pixel (1, 1). -/
theorem setFrame_effect_witness :
    (setFrame (freshDriver 0 0) 200)._frame = 200
      ∧ issued (setFrame (freshDriver 0 0) 200)
          (drawPixel issiRegMap (setFrame (freshDriver 0 0) 200) 1 1 9)
          = [Txn.write [0xFD, 200], Txn.write [0x24 + 1 + 16, 9]] :=
  ⟨(setFrame_effect issiRegMap (freshDriver 0 0) 200 1 1 9 (by decide)).2.2.2.1,
   (setFrame_effect issiRegMap (freshDriver 0 0) 200 1 1 9 (by decide)).2.2.2.2⟩

/-- C14. `displayFrame frame` is `writeRegister8` to the picture-frame register
of the function bank with the byte `frame` when frame <= 7 and 0 otherwise;
the byte written is at most 7, and the current frame and the rotation are
unchanged. -/
theorem displayFrame_trace (R : RegMap) (d : Driver) (frame : Nat) :
    displayFrame R d frame
        = (writeRegister8 R d R.ISSI_BANK_FUNCTIONREG R.ISSI_REG_PICTUREFRAME
            (if frame ≤ 7 then frame else 0)).2
      ∧ issued d (displayFrame R d frame)
        = [Txn.write [R.ISSI_COMMANDREGISTER, R.ISSI_BANK_FUNCTIONREG],
           Txn.write [R.ISSI_REG_PICTUREFRAME, if frame ≤ 7 then frame else 0]]
      ∧ (if frame ≤ 7 then frame else 0) ≤ 7
      ∧ (displayFrame R d frame)._frame = d._frame
      ∧ (displayFrame R d frame).rotation = d.rotation := by
  have hv : (if frame > 7 then 0 else frame) = (if frame ≤ 7 then frame else 0) := by
    split_ifs <;> omega
  have h1 : displayFrame R d frame
        = (writeRegister8 R d R.ISSI_BANK_FUNCTIONREG R.ISSI_REG_PICTUREFRAME
            (if frame ≤ 7 then frame else 0)).2 := by
    unfold displayFrame; simp only [hv]
  refine ⟨h1, ?_, by split_ifs <;> omega, rfl, rfl⟩
  apply issued_of_log
  rw [h1, writeRegister8_log]

/-- C15. `readRegister8` issues the bank select and the write-then-read of the
register offset, and returns the byte that read delivers, 0xFF when it
delivers none; the result is the same for every acknowledgment oracle, so it
does not depend on whether the bank select was acknowledged. -/
theorem readRegister8_result (R : RegMap) (d : Driver) (bank reg : Nat) :
    issued d (readRegister8 R d bank reg).2
        = [Txn.write [R.ISSI_COMMANDREGISTER, bank], Txn.writeThenRead [reg] 1]
      ∧ (d._i2c_dev.reply (d._i2c_dev.log.length + 1) = none →
          (readRegister8 R d bank reg).1 = 0xFF)
      ∧ (∀ b, d._i2c_dev.reply (d._i2c_dev.log.length + 1) = some b →
          (readRegister8 R d bank reg).1 = b)
      ∧ (∀ ack : Nat → Bool,
          (readRegister8 R { d with _i2c_dev := { d._i2c_dev with ack := ack } } bank reg).1
            = (readRegister8 R d bank reg).1) := by
  have hval : ∀ d2 : Driver, (readRegister8 R d2 bank reg).1
      = (d2._i2c_dev.reply (d2._i2c_dev.log.length + 1)).getD 0xFF := by
    intro d2
    simp [readRegister8, selectBank, I2CDevice.write, I2CDevice.write_then_read]
  refine ⟨?_, fun h => by rw [hval, h]; rfl, fun b h => by rw [hval, h]; rfl,
    fun ack => by rw [hval, hval]⟩
  apply issued_of_log
  simp [readRegister8, selectBank, I2CDevice.write, I2CDevice.write_then_read]

/-- C16. `writeRegister8` issues exactly two write transactions, the bank
select and then (reg, data), and returns the acknowledgment of the second:
the status of the bank select does not enter the result, and the register
write goes out also when the bank select is not acknowledged. -/
theorem writeRegister8_result (R : RegMap) (d : Driver) (bank reg data : Nat) :
    issued d (writeRegister8 R d bank reg data).2
        = [Txn.write [R.ISSI_COMMANDREGISTER, bank], Txn.write [reg, data]]
      ∧ (issued d (writeRegister8 R d bank reg data).2).length = 2
      ∧ (selectBank R d bank).1 = d._i2c_dev.ack d._i2c_dev.log.length
      ∧ (writeRegister8 R d bank reg data).1 = d._i2c_dev.ack (d._i2c_dev.log.length + 1)
      ∧ (d._i2c_dev.ack d._i2c_dev.log.length = false →
          issued d (writeRegister8 R d bank reg data).2
              = [Txn.write [R.ISSI_COMMANDREGISTER, bank], Txn.write [reg, data]]
            ∧ (writeRegister8 R d bank reg data).1
              = d._i2c_dev.ack (d._i2c_dev.log.length + 1)) := by
  have hi : issued d (writeRegister8 R d bank reg data).2
        = [Txn.write [R.ISSI_COMMANDREGISTER, bank], Txn.write [reg, data]] :=
    issued_of_log _ _ _ (writeRegister8_log R d bank reg data)
  have hr : (writeRegister8 R d bank reg data).1
      = d._i2c_dev.ack (d._i2c_dev.log.length + 1) := by
    simp [writeRegister8, selectBank, I2CDevice.write]
  exact ⟨hi, by rw [hi]; rfl, rfl, hr, fun _ => ⟨hi, hr⟩⟩

theorem setLEDBytesguy_log (d : Driver) (reg bits_l bits_r : Nat) :
    (setLEDBytesguy d reg bits_l bits_r)._i2c_dev.log
      = d._i2c_dev.log ++ (if reg < 18 then [Txn.write [0, bits_r, bits_l]] else []) := by
  unfold setLEDBytesguy
  by_cases h : reg ≥ 18
  · rw [if_pos h, if_neg (by omega), List.append_nil]
  · rw [if_neg h, if_pos (by omega)]; rfl

theorem setLEDBufguy_bytes (reg count : Nat) (mem : Int → Nat) (h : reg + count ≤ 9) :
    (List.range (toU8 (2 * (count : Int) + 1))).map
        (fun (k : Nat) => Function.update mem (-1) (toU8 ((reg : Int) * 2)) ((k : Int) - 1))
      = (reg * 2) :: (List.range (2 * count)).map (fun (k : Nat) => mem (k : Int)) := by
  have hlen : toU8 (2 * (count : Int) + 1) = 2 * count + 1 := by unfold toU8; omega
  have hoff : toU8 ((reg : Int) * 2) = reg * 2 := by unfold toU8; omega
  rw [hlen, hoff, List.range_succ_eq_map, List.map_cons, List.map_map]
  congr 1
  apply List.map_congr_left
  intro k _
  have hne : (((k + 1 : Nat) : Int) - 1) ≠ -1 := by omega
  simp only [Function.comp_apply, Nat.succ_eq_add_one]
  rw [Function.update_noteq hne]
  congr 1
  omega

theorem setLEDBufguy_log (d : Driver) (reg count : Nat) (mem : Int → Nat) :
    (setLEDBufguy d reg count mem).2._i2c_dev.log
      = d._i2c_dev.log ++ (if reg + count ≤ 9 then
          [Txn.write ((reg * 2) :: (List.range (2 * count)).map (fun (k : Nat) => mem (k : Int)))]
        else []) := by
  unfold setLEDBufguy
  by_cases h : reg + count > 9
  · rw [if_pos h, if_neg (by omega), List.append_nil]
  · rw [if_neg h, if_pos (by omega)]
    simp only [I2CDevice.write]
    rw [setLEDBufguy_bytes reg count mem (by omega)]

/-- C17. The range check of `setLEDBufguy` is on reg + count as an integer sum
(no 8-bit wrap: reg = 250, count = 10 is rejected).  When reg + count > 9 the
call issues nothing and leaves the caller's memory, the byte ahead of the
buffer included, as it was.  When reg + count <= 9 it stores reg*2 in the
byte ahead of the buffer and issues exactly one write transaction of
2*count + 1 bytes: reg*2, then the first 2*count bytes of the words. -/
theorem setLEDBufguy_range_check (d : Driver) (reg count : Nat) (mem : Int → Nat) :
    (reg + count > 9 →
        setLEDBufguy d reg count mem = (mem, d)
        ∧ issued d (setLEDBufguy d reg count mem).2 = []
        ∧ (setLEDBufguy d reg count mem).1 (-1) = mem (-1))
      ∧ (reg + count ≤ 9 →
        issued d (setLEDBufguy d reg count mem).2
            = [Txn.write ((reg * 2) :: (List.range (2 * count)).map (fun (k : Nat) => mem (k : Int)))]
        ∧ ((reg * 2) :: (List.range (2 * count)).map (fun (k : Nat) => mem (k : Int))).length
            = 2 * count + 1
        ∧ (setLEDBufguy d reg count mem).1 = Function.update mem (-1) (reg * 2))
      ∧ setLEDBufguy d 250 10 mem = (mem, d) := by
  have hgt : ∀ r c : Nat, r + c > 9 → setLEDBufguy d r c mem = (mem, d) := by
    intro r c h; unfold setLEDBufguy; rw [if_pos h]
  refine ⟨fun h => ⟨hgt reg count h, ?_, by rw [hgt reg count h]⟩, fun h => ⟨?_, by simp, ?_⟩,
    hgt 250 10 (by decide)⟩
  · rw [hgt reg count h]; exact issued_self d
  · apply issued_of_log
    rw [setLEDBufguy_log, if_pos h]
  · have hoff : toU8 ((reg : Int) * 2) = reg * 2 := by unfold toU8; omega
    unfold setLEDBufguy
    rw [if_neg (by omega)]
    simp only [hoff]

/-- C18. The six block writes of `clear` zero the 144 PWM registers of the
frame, each exactly once.  After the bank select of the current frame the
trace is six writes of 25 bytes, an offset byte and 24 zero bytes.  Reading
each write as covering the 24 consecutive registers from its offset byte, the
bytes stored are, in the order written, 0 at 0x24, 0 at 0x25, ..., 0 at 0xB3:
144 addresses, pairwise distinct, each below 256, a register being covered
exactly when it lies in 0x24..0xB3.  On the register file (command register
above the PWM region) the trace leaves 0 in the cells 0x24..0xB3 of the
current frame's bank and every other cell as it was. -/
theorem clear_covers_pwm_once (R : RegMap) (d : Driver) :
    (issued d (clear R d)).take 1 = [Txn.write [R.ISSI_COMMANDREGISTER, d._frame]]
      ∧ ((issued d (clear R d)).drop 1).flatMap blockRegs = List.range' 0x24 144
      ∧ (((issued d (clear R d)).drop 1).flatMap blockRegs).length = 144
      ∧ (((issued d (clear R d)).drop 1).flatMap blockRegs).Nodup
      ∧ (∀ a ∈ ((issued d (clear R d)).drop 1).flatMap blockRegs, a < 256)
      ∧ (∀ a, a ∈ ((issued d (clear R d)).drop 1).flatMap blockRegs ↔ 0x24 ≤ a ∧ a ≤ 0xB3)
      ∧ (issued d (clear R d)).drop 1
          = [0x24, 0x3C, 0x54, 0x6C, 0x84, 0x9C].map
              (fun o => Txn.write (o :: List.replicate 24 0))
      ∧ ((issued d (clear R d)).drop 1).length = 6
      ∧ (∀ t ∈ (issued d (clear R d)).drop 1,
          ∃ o, t = Txn.write (o :: List.replicate 24 0)
            ∧ (o :: List.replicate 24 0).length = 25)
      ∧ ((issued d (clear R d)).drop 1).flatMap blockCells
          = (List.range' 0x24 144).map (fun a => (a, 0))
      ∧ (∀ cell ∈ ((issued d (clear R d)).drop 1).flatMap blockCells, cell.2 = 0)
      ∧ (0xB4 ≤ R.ISSI_COMMANDREGISTER →
          ∀ (c : Chip) (b r : Nat),
            (Chip.run R c (issued d (clear R d))).mem b r
              = if b = d._frame ∧ 0x24 ≤ r ∧ r ≤ 0xB3 then 0 else c.mem b r) := by
  have hi : issued d (clear R d) = specClearTrace R d._frame :=
    issued_of_log _ _ _ (clear_log R d)
  have hblocks : (issued d (clear R d)).drop 1
      = [0x24, 0x3C, 0x54, 0x6C, 0x84, 0x9C].map
          (fun o => Txn.write (o :: List.replicate 24 0)) := by
    rw [hi]; rfl
  have hregs : ((issued d (clear R d)).drop 1).flatMap blockRegs = List.range' 0x24 144 := by
    rw [hblocks]
    decide
  have hcells : ((issued d (clear R d)).drop 1).flatMap blockCells
      = (List.range' 0x24 144).map (fun a => (a, 0)) := by
    rw [hblocks]
    decide
  refine ⟨by rw [hi]; rfl, hregs, ?_, ?_, ?_, ?_, hblocks, by rw [hblocks]; rfl, ?_, hcells,
    ?_, ?_⟩
  · rw [hregs, List.length_range']
  · rw [hregs]; exact List.nodup_range' _ _
  · intro a ha
    rw [hregs, List.mem_range'_1] at ha
    omega
  · intro a
    rw [hregs, List.mem_range'_1]
    omega
  · intro t ht
    rw [hblocks] at ht
    obtain ⟨o, _, ho⟩ := List.mem_map.mp ht
    exact ⟨o, ho.symm, by simp⟩
  · intro cell hc
    rw [hcells] at hc
    obtain ⟨a, _, ha⟩ := List.mem_map.mp hc
    rw [← ha]
  · intro hcmd c b r
    rw [hi]
    exact Chip.run_clear R c d._frame hcmd b r

/-- Witness for C18: `clear` on frame 2 over a register file holding 0x55
everywhere leaves 0 in registers 0x24 and 0xB3 of bank 2, and 0x55 in the
neighbouring registers 0x23 and 0xB4 and in bank 3. -/
theorem clear_covers_pwm_once_witness :
    (Chip.run issiRegMap ⟨0, fun _ _ => 0x55⟩
        (issued (freshDriver 2 0) (clear issiRegMap (freshDriver 2 0)))).mem 2 0x24 = 0
      ∧ (Chip.run issiRegMap ⟨0, fun _ _ => 0x55⟩
        (issued (freshDriver 2 0) (clear issiRegMap (freshDriver 2 0)))).mem 2 0xB3 = 0
      ∧ (Chip.run issiRegMap ⟨0, fun _ _ => 0x55⟩
        (issued (freshDriver 2 0) (clear issiRegMap (freshDriver 2 0)))).mem 2 0x23 = 0x55
      ∧ (Chip.run issiRegMap ⟨0, fun _ _ => 0x55⟩
        (issued (freshDriver 2 0) (clear issiRegMap (freshDriver 2 0)))).mem 2 0xB4 = 0x55
      ∧ (Chip.run issiRegMap ⟨0, fun _ _ => 0x55⟩
        (issued (freshDriver 2 0) (clear issiRegMap (freshDriver 2 0)))).mem 3 0x24 = 0x55 :=
  ⟨(clear_covers_pwm_once issiRegMap (freshDriver 2 0)).2.2.2.2.2.2.2.2.2.2.2
      (by decide) ⟨0, fun _ _ => 0x55⟩ 2 0x24,
   (clear_covers_pwm_once issiRegMap (freshDriver 2 0)).2.2.2.2.2.2.2.2.2.2.2
      (by decide) ⟨0, fun _ _ => 0x55⟩ 2 0xB3,
   (clear_covers_pwm_once issiRegMap (freshDriver 2 0)).2.2.2.2.2.2.2.2.2.2.2
      (by decide) ⟨0, fun _ _ => 0x55⟩ 2 0x23,
   (clear_covers_pwm_once issiRegMap (freshDriver 2 0)).2.2.2.2.2.2.2.2.2.2.2
      (by decide) ⟨0, fun _ _ => 0x55⟩ 2 0xB4,
   (clear_covers_pwm_once issiRegMap (freshDriver 2 0)).2.2.2.2.2.2.2.2.2.2.2
      (by decide) ⟨0, fun _ _ => 0x55⟩ 3 0x24⟩

/-- C20. `setLEDBytesguy` never uses the register it is given beyond the
check reg < 18: for reg >= 18 it issues nothing, for reg < 18 its whole trace
is the one 3-byte write (0, bits_r, bits_l), no bank select among it, so any
two registers below 18 give the same driver and trace. -/
theorem setLEDBytesguy_trace (d : Driver) (reg bits_l bits_r : Nat) :
    (18 ≤ reg →
        setLEDBytesguy d reg bits_l bits_r = d
        ∧ issued d (setLEDBytesguy d reg bits_l bits_r) = [])
      ∧ (reg < 18 →
        issued d (setLEDBytesguy d reg bits_l bits_r) = [Txn.write [0, bits_r, bits_l]])
      ∧ (∀ (R : RegMap) (b : Nat),
          Txn.write [R.ISSI_COMMANDREGISTER, b] ∉ issued d (setLEDBytesguy d reg bits_l bits_r))
      ∧ (∀ r1 r2 : Nat, r1 < 18 → r2 < 18 →
          setLEDBytesguy d r1 bits_l bits_r = setLEDBytesguy d r2 bits_l bits_r
          ∧ issued d (setLEDBytesguy d r1 bits_l bits_r)
            = issued d (setLEDBytesguy d r2 bits_l bits_r)) := by
  have hi : issued d (setLEDBytesguy d reg bits_l bits_r)
      = if reg < 18 then [Txn.write [0, bits_r, bits_l]] else [] :=
    issued_of_log _ _ _ (setLEDBytesguy_log d reg bits_l bits_r)
  have hlt : ∀ r : Nat, r < 18 → setLEDBytesguy d r bits_l bits_r
      = { d with _i2c_dev := (d._i2c_dev.write [0, bits_r, bits_l]).2 } := by
    intro r h; unfold setLEDBytesguy; rw [if_neg (by omega)]
  refine ⟨fun h => ⟨?_, ?_⟩, fun h => by rw [hi, if_pos h], fun R b => ?_, fun r1 r2 h1 h2 => ?_⟩
  · unfold setLEDBytesguy; rw [if_pos h]
  · rw [hi, if_neg (by omega)]
  · rw [hi]; split_ifs <;> simp
  · rw [hlt r1 h1, hlt r2 h2]; exact ⟨rfl, rfl⟩

theorem drawPixel_issued (R : RegMap) (d : Driver) (x y : Int) (color : Nat) :
    issued d (drawPixel R d x y color)
      = if inGrid (rotate d.rotation x y) then
          [Txn.write [R.ISSI_COMMANDREGISTER, d._frame],
           Txn.write [(0x24 + (rotate d.rotation x y).1 + 16 * (rotate d.rotation x y).2).toNat,
             min color 255]]
        else [] := by
  rw [drawPixel_eq]
  by_cases h : inGrid (rotate d.rotation x y)
  · rw [if_pos h, if_pos h]
    exact issued_of_log _ _ _ (writeRegister8_log _ _ _ _ _)
  · rw [if_neg h, if_neg h]
    exact issued_self d

theorem writtenReg_eq (R : RegMap) (d : Driver) (x y : Int) (color : Nat) :
    writtenReg R d x y color
      = if inGrid (rotate d.rotation x y) then
          some (0x24 + (rotate d.rotation x y).1 + 16 * (rotate d.rotation x y).2).toNat
        else none := by
  unfold writtenReg
  rw [drawPixel_issued]
  by_cases h : inGrid (rotate d.rotation x y)
  · rw [if_pos h, if_pos h]
  · rw [if_neg h, if_neg h]

/-- Inside the grid the stored coordinates are the unbounded ones. -/
theorem rotate_eq_specRemap (r : Nat) (x y : Int) (hr : r < 4)
    (hx : -32768 ≤ x ∧ x ≤ 32767) (hy : -32768 ≤ y ∧ y ≤ 32767)
    (hin : inGrid (specRemap r x y)) : rotate r x y = specRemap r x y := by
  interval_cases r <;>
    simp only [rotate, specRemap, inGrid, toI16, Prod.mk.injEq, and_true, true_and] at hin ⊢ <;> omega

theorem specRemap_injective (r : Nat) (x y x2 y2 : Int) (hr : r < 4)
    (h : specRemap r x y = specRemap r x2 y2) : x = x2 ∧ y = y2 := by
  interval_cases r <;> simp only [specRemap, Prod.mk.injEq] at h <;> omega

theorem specRemap_surjective (r : Nat) (a b : Int) (hr : r < 4)
    (ha : 0 ≤ a ∧ a < 16) (hb : 0 ≤ b ∧ b < 9) :
    ∃ x y : Int, (-32768 ≤ x ∧ x ≤ 32767) ∧ (-32768 ≤ y ∧ y ≤ 32767)
      ∧ specRemap r x y = (a, b) := by
  interval_cases r
  · exact ⟨a, b, by omega, by omega, rfl⟩
  · exact ⟨b, 15 - a, by omega, by omega, by simp only [specRemap, Prod.mk.injEq, and_true, true_and]; omega⟩
  · exact ⟨15 - a, 8 - b, by omega, by omega, by simp only [specRemap, Prod.mk.injEq, and_true, true_and]; omega⟩
  · exact ⟨8 - b, a, by omega, by omega, by simp only [specRemap, Prod.mk.injEq, and_true, true_and]; omega⟩

theorem inGrid_specRemap_iff (r : Nat) (x y : Int) :
    ((r = 0 ∨ r = 2) → (inGrid (specRemap r x y) ↔ (0 ≤ x ∧ x < 16 ∧ 0 ≤ y ∧ y < 9)))
      ∧ ((r = 1 ∨ r = 3) → (inGrid (specRemap r x y) ↔ (0 ≤ x ∧ x < 9 ∧ 0 ≤ y ∧ y < 16))) := by
  constructor
  · rintro (h | h)
    · subst h; exact Iff.rfl
    · subst h; simp only [specRemap, inGrid]; omega
  · rintro (h | h)
    · subst h; simp only [specRemap, inGrid]; omega
    · subst h; simp only [specRemap, inGrid]; omega

/-- C19. For a rotation in 0..3 the pixels `drawPixel` accepts map one-to-one
onto the PWM registers.  Over 16-bit `x`, `y`: a pixel is written exactly when
its remapped coordinates are in the grid, which is 0<=x<16, 0<=y<9 under
rotations 0 and 2 and 0<=x<9, 0<=y<16 under rotations 1 and 3; the register
written lies in 0x24..0xB3; two pixels writing the same register are the same
pixel; every register 0x24..0xB3 is written by some pixel; and for an accepted
pixel the index given to `setLEDPWM` is below 144, so the call is the register
write and is never dropped by the guard. -/
theorem drawPixel_register_bijection (R : RegMap) (d : Driver) (color : Nat)
    (hrot : d.rotation < 4) :
    (∀ x y : Int, -32768 ≤ x ∧ x ≤ 32767 → -32768 ≤ y ∧ y ≤ 32767 →
        ((writtenReg R d x y color).isSome ↔ inGrid (specRemap d.rotation x y)))
      ∧ (∀ x y : Int,
          ((d.rotation = 0 ∨ d.rotation = 2) →
            (inGrid (specRemap d.rotation x y) ↔ (0 ≤ x ∧ x < 16 ∧ 0 ≤ y ∧ y < 9)))
          ∧ ((d.rotation = 1 ∨ d.rotation = 3) →
            (inGrid (specRemap d.rotation x y) ↔ (0 ≤ x ∧ x < 9 ∧ 0 ≤ y ∧ y < 16))))
      ∧ (∀ (x y : Int) (reg : Nat), writtenReg R d x y color = some reg →
          0x24 ≤ reg ∧ reg ≤ 0xB3)
      ∧ (∀ (x y x2 y2 : Int) (reg : Nat),
          -32768 ≤ x ∧ x ≤ 32767 → -32768 ≤ y ∧ y ≤ 32767 →
          -32768 ≤ x2 ∧ x2 ≤ 32767 → -32768 ≤ y2 ∧ y2 ≤ 32767 →
          writtenReg R d x y color = some reg → writtenReg R d x2 y2 color = some reg →
          x = x2 ∧ y = y2)
      ∧ (∀ reg : Nat, 0x24 ≤ reg → reg ≤ 0xB3 →
          ∃ x y : Int, (-32768 ≤ x ∧ x ≤ 32767) ∧ (-32768 ≤ y ∧ y ≤ 32767)
            ∧ writtenReg R d x y color = some reg)
      ∧ (∀ x y : Int, inGrid (rotate d.rotation x y) →
          toU8 ((rotate d.rotation x y).1 + (rotate d.rotation x y).2 * 16) < 144
          ∧ drawPixel R d x y color
            = (writeRegister8 R d d._frame
                (0x24 + toU8 ((rotate d.rotation x y).1 + (rotate d.rotation x y).2 * 16))
                (min color 255)).2) := by
  have hsome : ∀ (x y : Int) (reg : Nat), writtenReg R d x y color = some reg →
      inGrid (rotate d.rotation x y)
        ∧ reg = (0x24 + (rotate d.rotation x y).1 + 16 * (rotate d.rotation x y).2).toNat := by
    intro x y reg h
    rw [writtenReg_eq] at h
    by_cases hg : inGrid (rotate d.rotation x y)
    · rw [if_pos hg] at h
      exact ⟨hg, (Option.some.inj h).symm⟩
    · rw [if_neg hg] at h
      exact absurd h (by simp)
  refine ⟨?_, fun x y => inGrid_specRemap_iff d.rotation x y, ?_, ?_, ?_, ?_⟩
  · intro x y hx hy
    rw [writtenReg_eq, ← inGrid_rotate_iff d.rotation x y hrot hx hy]
    by_cases hg : inGrid (rotate d.rotation x y)
    · rw [if_pos hg]; simp [hg]
    · rw [if_neg hg]; simp [hg]
  · intro x y reg h
    obtain ⟨hg, hreg⟩ := hsome x y reg h
    unfold inGrid at hg
    omega
  · intro x y x2 y2 reg hx hy hx2 hy2 h1 h2
    obtain ⟨hg1, hr1⟩ := hsome x y reg h1
    obtain ⟨hg2, hr2⟩ := hsome x2 y2 reg h2
    have e1 := rotate_eq_specRemap d.rotation x y hrot hx hy
      ((inGrid_rotate_iff d.rotation x y hrot hx hy).mp hg1)
    have e2 := rotate_eq_specRemap d.rotation x2 y2 hrot hx2 hy2
      ((inGrid_rotate_iff d.rotation x2 y2 hrot hx2 hy2).mp hg2)
    apply specRemap_injective d.rotation x y x2 y2 hrot
    rw [← e1, ← e2]
    unfold inGrid at hg1 hg2
    apply Prod.ext
    · omega
    · omega
  · intro reg h1 h2
    obtain ⟨x, y, hx, hy, hxy⟩ := specRemap_surjective d.rotation
      (((reg : Int) - 0x24) % 16) (((reg : Int) - 0x24) / 16) hrot (by omega) (by omega)
    have hg : inGrid (specRemap d.rotation x y) := by
      rw [hxy]; unfold inGrid; simp only; omega
    have e := rotate_eq_specRemap d.rotation x y hrot hx hy hg
    refine ⟨x, y, hx, hy, ?_⟩
    rw [writtenReg_eq, e, if_pos hg, hxy]
    simp only
    congr 1
    omega
  · intro x y hg
    have hidx : toU8 ((rotate d.rotation x y).1 + (rotate d.rotation x y).2 * 16)
        = ((rotate d.rotation x y).1 + 16 * (rotate d.rotation x y).2).toNat := by
      unfold inGrid at hg; unfold toU8; omega
    have hreg : 0x24 + ((rotate d.rotation x y).1 + 16 * (rotate d.rotation x y).2).toNat
        = (0x24 + (rotate d.rotation x y).1 + 16 * (rotate d.rotation x y).2).toNat := by
      unfold inGrid at hg; omega
    rw [hidx, hreg, drawPixel_eq, if_pos hg]
    refine ⟨?_, rfl⟩
    unfold inGrid at hg; omega

/-- Witness for C19: under rotation 1 the pixel (8, 0) writes the last PWM
register, 0xB3. -/
theorem drawPixel_register_bijection_witness :
    ∃ x y : Int, (-32768 ≤ x ∧ x ≤ 32767) ∧ (-32768 ≤ y ∧ y ≤ 32767)
      ∧ writtenReg issiRegMap (freshDriver 0 1) x y 50 = some 0xB3 :=
  (drawPixel_register_bijection issiRegMap (freshDriver 0 1) 50 (by decide)).2.2.2.2.1
    0xB3 (by decide) (by decide)

/-! ## Bank selects ahead of register writes -/

theorem annotate_cons_select (R : RegMap) (cur : Option Nat) (b : Nat) (ts : List Txn) :
    annotate R cur (Txn.write [R.ISSI_COMMANDREGISTER, b] :: ts) = annotate R (some b) ts := by
  simp [annotate, bankSelected]

theorem annotate_cons_data (R : RegMap) (cur : Option Nat) (t : Txn) (ts : List Txn)
    (h : bankSelected R t = none) :
    annotate R cur (t :: ts) = (cur, t) :: annotate R cur ts := by
  simp [annotate, h]

theorem mem_annotate_writeRegister8 (R : RegMap) (bank reg data : Nat) (rest : List Txn)
    (cur : Option Nat) (e : Option Nat × Txn)
    (h : e ∈ annotate R cur (specWriteRegister8Trace R bank reg data ++ rest)) :
    e = (some bank, Txn.write [reg, data]) ∨ ∃ cur2, e ∈ annotate R cur2 rest := by
  unfold specWriteRegister8Trace at h
  simp only [List.cons_append, List.nil_append] at h
  rw [annotate_cons_select] at h
  by_cases hc : reg = R.ISSI_COMMANDREGISTER
  · subst hc
    rw [annotate_cons_select] at h
    exact Or.inr ⟨_, h⟩
  · have hb : bankSelected R (Txn.write [reg, data]) = none := by
      simp [bankSelected, hc]
    rw [annotate_cons_data R _ _ _ hb, List.mem_cons] at h
    rcases h with h | h
    · exact Or.inl h
    · exact Or.inr ⟨_, h⟩

theorem mem_annotate_row (R : RegMap) (f v : Nat) (l2 : List Nat) (rest : List Txn)
    (cur : Option Nat) (e : Option Nat × Txn)
    (h : e ∈ annotate R cur
      (l2.flatMap (fun i => specWriteRegister8Trace R f i v) ++ rest)) :
    (∃ i ∈ l2, e = (some f, Txn.write [i, v])) ∨ ∃ cur2, e ∈ annotate R cur2 rest := by
  induction l2 generalizing cur with
  | nil => exact Or.inr ⟨cur, h⟩
  | cons i l2 ih =>
    rw [List.flatMap_cons, List.append_assoc] at h
    rcases mem_annotate_writeRegister8 R f i v _ cur e h with h1 | ⟨cur2, h2⟩
    · exact Or.inl ⟨i, List.mem_cons_self _ _, h1⟩
    · rcases ih cur2 h2 with ⟨j, hj, he⟩ | h3
      · exact Or.inl ⟨j, List.mem_cons_of_mem _ hj, he⟩
      · exact Or.inr h3

theorem mem_annotate_rows (R : RegMap) (v : Nat) (l1 l2 : List Nat) (rest : List Txn)
    (cur : Option Nat) (e : Option Nat × Txn)
    (h : e ∈ annotate R cur
      (l1.flatMap (fun f => l2.flatMap (fun i => specWriteRegister8Trace R f i v)) ++ rest)) :
    (∃ f ∈ l1, ∃ i ∈ l2, e = (some f, Txn.write [i, v]))
      ∨ ∃ cur2, e ∈ annotate R cur2 rest := by
  induction l1 generalizing cur with
  | nil => exact Or.inr ⟨cur, h⟩
  | cons f l1 ih =>
    rw [List.flatMap_cons, List.append_assoc] at h
    rcases mem_annotate_row R f v l2 _ cur e h with ⟨i, hi, he⟩ | ⟨cur2, h2⟩
    · exact Or.inl ⟨f, List.mem_cons_self _ _, i, hi, he⟩
    · rcases ih cur2 h2 with ⟨g, hg, j, hj, he⟩ | h3
      · exact Or.inl ⟨g, List.mem_cons_of_mem _ hg, j, hj, he⟩
      · exact Or.inr h3

theorem annotate_clear (R : RegMap) (frame : Nat) (rest : List Txn) (cur : Option Nat) :
    annotate R cur (specClearTrace R frame ++ rest)
      = (List.range 6).map
          (fun i => (some frame, Txn.write ((0x24 + i * 24) :: List.replicate 24 0)))
        ++ annotate R (some frame) rest := by
  have hb : ∀ o : Nat, bankSelected R (Txn.write (o :: List.replicate 24 0)) = none :=
    fun _ => rfl
  have hl : specClearTrace R frame
      = [Txn.write [R.ISSI_COMMANDREGISTER, frame],
         Txn.write (0x24 :: List.replicate 24 0), Txn.write (0x3C :: List.replicate 24 0),
         Txn.write (0x54 :: List.replicate 24 0), Txn.write (0x6C :: List.replicate 24 0),
         Txn.write (0x84 :: List.replicate 24 0), Txn.write (0x9C :: List.replicate 24 0)] := rfl
  rw [hl]
  simp only [List.cons_append, List.nil_append]
  rw [annotate_cons_select, annotate_cons_data R _ _ _ (hb _), annotate_cons_data R _ _ _ (hb _),
    annotate_cons_data R _ _ _ (hb _), annotate_cons_data R _ _ _ (hb _),
    annotate_cons_data R _ _ _ (hb _), annotate_cons_data R _ _ _ (hb _)]
  rfl

theorem annotate_nil (R : RegMap) (cur : Option Nat) : annotate R cur [] = [] := rfl

theorem mem_annotate_specBeginTrace (R : RegMap) (cur : Option Nat) (e : Option Nat × Txn)
    (h : e ∈ annotate R cur (specBeginTrace R)) : beginTarget R e := by
  have hT : specBeginTrace R
      = specWriteRegister8Trace R R.ISSI_BANK_FUNCTIONREG R.ISSI_REG_SHUTDOWN 0x00
        ++ (specWriteRegister8Trace R R.ISSI_BANK_FUNCTIONREG R.ISSI_REG_SHUTDOWN 0x01
        ++ (specWriteRegister8Trace R R.ISSI_BANK_FUNCTIONREG R.ISSI_REG_CONFIG
              R.ISSI_REG_CONFIG_PICTUREMODE
        ++ (specWriteRegister8Trace R R.ISSI_BANK_FUNCTIONREG R.ISSI_REG_PICTUREFRAME 0
        ++ (specClearTrace R 0
        ++ ((List.range 8).flatMap (fun f =>
              (List.range 18).flatMap (fun i => specWriteRegister8Trace R f i 0xFF)) ++ []))))) := by
    unfold specBeginTrace
    simp only [List.append_assoc, List.append_nil]
  rw [hT] at h
  rcases mem_annotate_writeRegister8 R _ _ _ _ cur e h with h1 | ⟨c1, h⟩
  · exact Or.inl ⟨by rw [h1], by rw [h1]; simp⟩
  rcases mem_annotate_writeRegister8 R _ _ _ _ c1 e h with h1 | ⟨c2, h⟩
  · exact Or.inl ⟨by rw [h1], by rw [h1]; simp⟩
  rcases mem_annotate_writeRegister8 R _ _ _ _ c2 e h with h1 | ⟨c3, h⟩
  · exact Or.inl ⟨by rw [h1], by rw [h1]; simp⟩
  rcases mem_annotate_writeRegister8 R _ _ _ _ c3 e h with h1 | ⟨c4, h⟩
  · exact Or.inl ⟨by rw [h1], by rw [h1]; simp⟩
  rw [annotate_clear, List.mem_append] at h
  rcases h with h | h
  · obtain ⟨i, hi, he⟩ := List.mem_map.mp h
    exact Or.inr (Or.inl ⟨i, List.mem_range.mp hi, he.symm⟩)
  · rcases mem_annotate_rows R 0xFF _ _ [] _ e h with ⟨f, hf, i, hi, he⟩ | ⟨c5, h5⟩
    · exact Or.inr (Or.inr ⟨f, i, List.mem_range.mp hf, List.mem_range.mp hi, he⟩)
    · rw [annotate_nil] at h5
      exact absurd h5 (List.not_mem_nil _)

theorem mem_annotate_writeRegister8_only (R : RegMap) (bank reg data : Nat)
    (cur : Option Nat) (e : Option Nat × Txn)
    (h : e ∈ annotate R cur (specWriteRegister8Trace R bank reg data)) :
    e = (some bank, Txn.write [reg, data]) := by
  rw [← List.append_nil (specWriteRegister8Trace R bank reg data)] at h
  rcases mem_annotate_writeRegister8 R bank reg data [] cur e h with h1 | ⟨c, h2⟩
  · exact h1
  · exact absurd h2 (List.not_mem_nil _)

theorem setLEDPWM_issued (R : RegMap) (d : Driver) (lednum pwm bank : Nat) :
    issued d (setLEDPWM R d lednum pwm bank)
      = if lednum < 144 then specWriteRegister8Trace R bank (0x24 + lednum) pwm else [] := by
  unfold setLEDPWM
  by_cases h : lednum ≥ 144
  · rw [if_pos h, if_neg (by omega)]; exact issued_self d
  · have hreg : toU8 (0x24 + (lednum : Int)) = 0x24 + lednum := by unfold toU8; omega
    rw [if_neg h, if_pos (by omega), hreg]
    exact issued_of_log _ _ _ (writeRegister8_log _ _ _ _ _)

theorem readRegister8_issued (R : RegMap) (d : Driver) (bank reg : Nat) :
    issued d (readRegister8 R d bank reg).2
      = [Txn.write [R.ISSI_COMMANDREGISTER, bank], Txn.writeThenRead [reg] 1] := by
  apply issued_of_log
  simp [readRegister8, selectBank, I2CDevice.write, I2CDevice.write_then_read]

/-- C12, as the code has it. Pairing every register/data transaction of a
call's trace with the bank of the latest bank select before it in that trace
(none: no bank select in the trace before it): in `writeRegister8`,
`readRegister8`, `setLEDPWM`, `drawPixel`, `displayFrame`, `clear` (one bank
select ahead of its six block writes) and `begin`, every such transaction has
its target bank selected within the call; the bulk helpers `setLEDBytesguy`
and `setLEDBufguy` issue their one write with no bank select before it. -/
theorem bank_select_before_register_writes (R : RegMap) (d : Driver)
    (bank reg data lednum pwm frame count bits_l bits_r : Nat) (x y : Int) (color : Nat)
    (mem : Int → Nat) :
    (∀ e ∈ annotate R none (issued d (writeRegister8 R d bank reg data).2),
        e = (some bank, Txn.write [reg, data]))
      ∧ annotate R none (issued d (readRegister8 R d bank reg).2)
          = [(some bank, Txn.writeThenRead [reg] 1)]
      ∧ (∀ e ∈ annotate R none (issued d (setLEDPWM R d lednum pwm bank)),
          e = (some bank, Txn.write [0x24 + lednum, pwm]))
      ∧ (∀ e ∈ annotate R none (issued d (drawPixel R d x y color)), e.1 = some d._frame)
      ∧ (∀ e ∈ annotate R none (issued d (displayFrame R d frame)),
          e.1 = some R.ISSI_BANK_FUNCTIONREG)
      ∧ annotate R none (issued d (clear R d))
          = (List.range 6).map
              (fun i => (some d._frame, Txn.write ((0x24 + i * 24) :: List.replicate 24 0)))
      ∧ (∀ e ∈ annotate R none (issued d (begin R d).2), beginTarget R e)
      ∧ (reg < 18 →
          annotate R none (issued d (setLEDBytesguy d reg bits_l bits_r))
            = [(none, Txn.write [0, bits_r, bits_l])])
      ∧ (reg + count ≤ 9 →
          annotate R none (issued d (setLEDBufguy d reg count mem).2)
            = [(none, Txn.write
                ((reg * 2) :: (List.range (2 * count)).map (fun (k : Nat) => mem (k : Int))))]) := by
  refine ⟨?_, ?_, ?_, ?_, ?_, ?_, ?_, ?_, ?_⟩
  · intro e he
    rw [issued_of_log _ _ _ (writeRegister8_log R d bank reg data)] at he
    exact mem_annotate_writeRegister8_only R bank reg data none e he
  · rw [readRegister8_issued, annotate_cons_select]
    rfl
  · intro e he
    rw [setLEDPWM_issued] at he
    by_cases h : lednum < 144
    · rw [if_pos h] at he
      exact mem_annotate_writeRegister8_only R bank _ pwm none e he
    · rw [if_neg h] at he
      exact absurd he (List.not_mem_nil _)
  · intro e he
    rw [drawPixel_issued] at he
    by_cases h : inGrid (rotate d.rotation x y)
    · rw [if_pos h] at he
      rw [mem_annotate_writeRegister8_only R d._frame _ _ none e he]
    · rw [if_neg h] at he
      exact absurd he (List.not_mem_nil _)
  · intro e he
    rw [issued_of_log _ _ _ (displayFrame_log R d frame)] at he
    rw [mem_annotate_writeRegister8_only R _ _ _ none e he]
  · rw [issued_of_log _ _ _ (clear_log R d), ← List.append_nil (specClearTrace R d._frame),
      annotate_clear, annotate_nil, List.append_nil]
  · intro e he
    cases hd : d._i2c_dev.detected with
    | false =>
      have hb : begin R d = (false, d) := by unfold begin; rw [hd]; rfl
      rw [hb, issued_self] at he
      exact absurd he (List.not_mem_nil _)
    | true =>
      rw [begin_issued R d hd] at he
      exact mem_annotate_specBeginTrace R none e he
  · intro h
    rw [issued_of_log _ _ _ (setLEDBytesguy_log d reg bits_l bits_r), if_pos h]
    rfl
  · intro h
    rw [issued_of_log _ _ _ (setLEDBufguy_log d reg count mem), if_pos h]
    have hb : bankSelected R (Txn.write
        ((reg * 2) :: (List.range (2 * count)).map (fun (k : Nat) => mem (k : Int)))) = none := by
      cases count with
      | zero => rfl
      | succ n =>
        have h2 : 2 * (n + 1) = (2 * n + 1) + 1 := by omega
        rw [h2, List.range_succ_eq_map, List.map_cons, List.range_succ_eq_map, List.map_cons]
        rfl
    rw [annotate_cons_data R _ _ _ hb]
    rfl

/-- Counterexample to C12 as stated: the trace of `setLEDBytesguy` is one
register write with no bank select before it. -/
theorem setLEDBytesguy_no_bank_select :
    issued (freshDriver 3 0) (setLEDBytesguy (freshDriver 3 0) 0 0xAA 0x55)
        = [Txn.write [0, 0x55, 0xAA]]
      ∧ annotate issiRegMap none
          (issued (freshDriver 3 0) (setLEDBytesguy (freshDriver 3 0) 0 0xAA 0x55))
        = [(none, Txn.write [0, 0x55, 0xAA])]
      ∧ ¬ (∀ e ∈ annotate issiRegMap none
            (issued (freshDriver 3 0) (setLEDBytesguy (freshDriver 3 0) 0 0xAA 0x55)),
          ∃ b, e.1 = some b) := by
  refine ⟨by decide, by decide, fun h => ?_⟩
  obtain ⟨b, hb⟩ := h (none, Txn.write [0, 0x55, 0xAA]) (by decide)
  exact absurd hb (by simp)

end IS31FL3731
